import Mathlib

/-!
The pygame source `freetype/ft_unicode.c`: text normalisation to 32-bit code
points.

A shallow embedding of `PGFT_EncodePyString` and `Err_UnicodeEncodeError`
(`src/freetype/ft_unicode.c`), followed by theorems about them.

Conventions of the embedding:

* a `Py_UNICODE` or `PGFT_char` value is a `Nat`; a conversion to an unsigned
  type of `w` bits is written `% 2 ^ w`;
* `Py_ssize_t` lengths are `Int` (`len` is decremented by the source), loop
  indices that only count upwards from zero are `Nat`;
* a `for` loop over `src[i]` is a recursion over the units that remain to be
  read (`src + i`), with the index `i` passed along;
* the output buffer is a list of slots, `none` for a slot that `malloc`
  returned and nothing has written yet.
-/

namespace PGFT

/-! ## Constants (lines 33-40) -/

def UNICODE_BOM_NATIVE : Nat := 0xFEFF
def UNICODE_BOM_SWAPPED : Nat := 0xFFFE
def UNICODE_HSA_START : Nat := 0xD800
def UNICODE_HSA_END : Nat := 0xD8FF
def UNICODE_LSA_START : Nat := 0xDC00
def UNICODE_LSA_END : Nat := 0xDFFF
def UNICODE_SA_START : Nat := 0xD800
def UNICODE_SA_END : Nat := 0xDFFF

/-! ## What the compilation target fixes -/

/-- The three things the source leaves to its build: the width of
`Py_UNICODE` (declared by the Python headers: 16 bits on a narrow build, 32 on
a wide one), whether plain `char` is signed (implementation-defined in C), and
for which sizes, counted in `PGFT_char` slots, `_PGFT_malloc` returns a
buffer. -/
structure Target where
  unicodeBits : Nat
  charSigned : Bool
  mallocOk : Nat → Bool

/-- A narrow build (16-bit `Py_UNICODE`) for an ABI with signed `char`, and an
allocator that never fails. -/
def narrowSigned : Target := ⟨16, true, fun _ => true⟩

/-- A narrow build (16-bit `Py_UNICODE`) for an ABI with unsigned `char`, and
an allocator that never fails. -/
def narrowUnsigned : Target := ⟨16, false, fun _ => true⟩

/-- A wide build (32-bit `Py_UNICODE`) for an ABI with signed `char`, and an
allocator that never fails. -/
def wideSigned : Target := ⟨32, true, fun _ => true⟩

/-! ## Data model -/

/-- The argument `obj`, by the two type tests the function makes:
`PyUnicode_Check`, `Bytes_Check`, or neither (then only `tp_name` is used).
A unicode object holds `Py_UNICODE` units, a bytes object holds octets. -/
inductive PyObject where
  | unicode (units : List Nat)
  | bytes (octets : List Nat)
  | other (tp_name : String)
deriving DecidableEq, Repr

/-- Every unit of a unicode object fits `Py_UNICODE`, every octet of a bytes
object is below 256. -/
def PyObject.wellFormed (T : Target) : PyObject → Prop
  | .unicode units => ∀ u ∈ units, u < 2 ^ T.unicodeBits
  | .bytes octets => ∀ b ∈ octets, b < 256
  | .other _ => True

/-- The ways the function does not return a string. The first three are the
Python exceptions it sets before returning `NULL`; `outOfBounds` is no
exception but an access outside `src` or outside the allocated buffer, which
the embedding reports instead of leaving it undefined. -/
inductive Failure where
  | unicodeEncodeError (codec : String) (object : PyObject) (start end_ : Nat)
      (reason : String)
  | noMemory
  | typeError (tp_name : String)
  | outOfBounds
deriving DecidableEq, Repr

/-- Modelled from the spec: `PGFT_String` is declared in `ft_wrap.h`, which is
not among the sources; the spec gives it a `length` and `length + 1` data
slots, the last one for the sentinel. -/
structure PGFT_String where
  length : Int
  data : List (Option Nat)
deriving DecidableEq, Repr

/-! ## `Err_UnicodeEncodeError` (lines 154-171) -/

/-- The exception built from `(codec, unistr, start, end, reason)`. The two
offsets are cast to `unsigned long`; they are indices into the object and so
not negative, and the cast leaves them as they are. -/
def Err_UnicodeEncodeError (codec : String) (unistr : PyObject) (start end_ : Nat)
    (reason : String) : Failure :=
  .unicodeEncodeError codec unistr start end_ reason

/-! ## Casts and memory -/

/-- Modelled from the spec: `PGFT_char` is declared in `ft_wrap.h`, which is
not among the sources; the spec makes a scalar 32 bits wide. This is the cast
`(PGFT_char)c` of a `Py_UNICODE` value. -/
def toPGFT_char (c : Nat) : Nat := c % 2 ^ 32

/-- The value of `src[i]` read through `char *src` when the octet stored there
is `b`: negative from 128 on where `char` is signed. -/
def charValue (T : Target) (b : Nat) : Int :=
  if T.charSigned = true ∧ 128 ≤ b then (b : Int) - 256 else (b : Int)

/-- The cast `(PGFT_char)(src[i])` of a `char` value: reduction modulo
`2 ^ 32`. -/
def charToPGFT_char (v : Int) : Nat := (v % 2 ^ 32).toNat

/-- The macro `SIZEOF_PGFT_STRING(len)` (lines 30-31), counted in data slots:
`sizeof(PGFT_String)` covers the length field and one slot, and `len` slots
are added to it. -/
def SIZEOF_PGFT_STRING (len : Int) : Nat := (len + 1).toNat

/-- The call `_PGFT_malloc(SIZEOF_PGFT_STRING(len))`: on success a buffer of
that many slots, none of them written. -/
def PGFT_malloc (T : Target) (len : Int) : Except Failure (List (Option Nat)) :=
  if T.mallocOk (SIZEOF_PGFT_STRING len) = true then
    .ok (List.replicate (SIZEOF_PGFT_STRING len) none)
  else .error .noMemory

/-- The assignment `dst[j] = v`. -/
def store (dst : List (Option Nat)) (j : Nat) (v : Nat) :
    Except Failure (List (Option Nat)) :=
  if j < dst.length then .ok (dst.set j (some v)) else .error .outOfBounds

/-! ## The loops of `PGFT_EncodePyString` -/

/-- The first loop (lines 68-97): `units` are `src[i], src[i+1], ...`; the
result is the final `len`. -/
def validateLoop (obj : PyObject) : List Nat → Nat → Int → Except Failure Int
  | [], _, len => .ok len
  | c :: rest, i, len =>
    if c = UNICODE_BOM_NATIVE ∨ c = UNICODE_BOM_SWAPPED then
      .error (Err_UnicodeEncodeError "utf-32" obj i (i + 1) "no BOM handling")
    else if UNICODE_SA_START ≤ c ∧ c < UNICODE_SA_END then
      if c > UNICODE_HSA_END then
        .error (Err_UnicodeEncodeError "utf-32" obj i (i + 1)
          "missing high-surrogate code point")
      else
        match rest with
        | [] =>
          .error (Err_UnicodeEncodeError "utf-32" obj (i + 1 - 1) (i + 1)
            "missing low-surrogate code point")
        | c2 :: rest2 =>
          if c2 < UNICODE_LSA_START ∨ c2 > UNICODE_LSA_END then
            .error (Err_UnicodeEncodeError "utf-32" obj (i + 1) (i + 1 + 1)
              "expected low-surrogate code point")
          else validateLoop obj rest2 (i + 1 + 1) (len - 1)
    else validateLoop obj rest (i + 1) len

/-- The merging loop (lines 108-113): `units` are `src[i], src[i+1], ...`, `j`
is the write index; the result is the final `j` and the buffer. The merged
value is assigned to `c`, a `Py_UNICODE`, before it is stored. -/
def mergeLoop (T : Target) : List Nat → Nat → List (Option Nat) →
    Except Failure (Nat × List (Option Nat))
  | [], j, dst => .ok (j, dst)
  | c :: rest, j, dst =>
    if UNICODE_HSA_START ≤ c ∧ c ≤ UNICODE_HSA_END then
      match rest with
      | [] => .error .outOfBounds
      | lo :: rest2 =>
        let c1 := ((((c &&& 0x3FF) <<< 10) ||| (lo &&& 0x3FF)) + 0x10000) % 2 ^ T.unicodeBits
        match store dst j (toPGFT_char c1) with
        | .error e => .error e
        | .ok dst1 => mergeLoop T rest2 (j + 1) dst1
    else
      match store dst j (toPGFT_char c) with
      | .error e => .error e
      | .ok dst1 => mergeLoop T rest (j + 1) dst1

/-- The copying loop taken when `surrogates` is zero (lines 116-118). -/
def copyLoop : List Nat → Nat → List (Option Nat) → Except Failure (List (Option Nat))
  | [], _, dst => .ok dst
  | c :: rest, i, dst =>
    match store dst i (toPGFT_char c) with
    | .error e => .error e
    | .ok dst1 => copyLoop rest (i + 1) dst1

/-- The loop over a bytes object (lines 138-140). -/
def bytesLoop (T : Target) : List Nat → Nat → List (Option Nat) →
    Except Failure (List (Option Nat))
  | [], _, dst => .ok dst
  | b :: rest, i, dst =>
    match store dst i (charToPGFT_char (charValue T b)) with
    | .error e => .error e
    | .ok dst1 => bytesLoop T rest (i + 1) dst1

/-- Lines 149-151: the sentinel and the length field. -/
def finish (dst : List (Option Nat)) (len : Int) : Except Failure PGFT_String :=
  match store dst len.toNat 0 with
  | .error e => .error e
  | .ok data => .ok ⟨len, data⟩

/-- The function `PGFT_EncodePyString(obj, surrogates)`. -/
def PGFT_EncodePyString (T : Target) (obj : PyObject) (surrogates : Bool) :
    Except Failure PGFT_String :=
  match obj with
  | .unicode src =>
    let srclen : Int := src.length
    match (if surrogates then validateLoop obj src 0 srclen else .ok srclen) with
    | .error e => .error e
    | .ok len =>
      match PGFT_malloc T len with
      | .error e => .error e
      | .ok dst =>
        match (if surrogates then (mergeLoop T src 0 dst).map Prod.snd
               else copyLoop src 0 dst) with
        | .error e => .error e
        | .ok dst1 => finish dst1 len
  | .bytes src =>
    let len : Int := src.length
    match PGFT_malloc T len with
    | .error e => .error e
    | .ok dst =>
      match bytesLoop T src 0 dst with
      | .error e => .error e
      | .ok dst1 => finish dst1 len
  | .other tp_name => .error (.typeError tp_name)

/-- The values the merging loop stores, in the order it stores them; `none`
when it reads `src[++i]` past the last unit. -/
def mergeValues (T : Target) : List Nat → Option (List Nat)
  | [] => some []
  | c :: rest =>
    if UNICODE_HSA_START ≤ c ∧ c ≤ UNICODE_HSA_END then
      match rest with
      | [] => none
      | lo :: rest2 =>
        (mergeValues T rest2).map
          (toPGFT_char (((((c &&& 0x3FF) <<< 10) ||| (lo &&& 0x3FF)) + 0x10000)
            % 2 ^ T.unicodeBits) :: ·)
    else (mergeValues T rest).map (toPGFT_char c :: ·)

/-- The valid pair of the length invariant at index `k`: unit `k` is in
`[0xD800, 0xD8FF]` and unit `k + 1` is in `[0xDC00, 0xDFFF]`. -/
def validPairAt (src : List Nat) (k : Nat) : Bool :=
  match src[k]?, src[k + 1]? with
  | some h, some lo => decide (0xD800 ≤ h ∧ h ≤ 0xD8FF ∧ 0xDC00 ≤ lo ∧ lo ≤ 0xDFFF)
  | _, _ => false

/-- The number of valid pairs in the input: the indices `k` below its length
at which `validPairAt` holds. -/
def validPairCount (src : List Nat) : Nat :=
  (List.range src.length).countP (validPairAt src)

/-- The number of units of the argument: the `srclen` of a unicode object, the
`len` of a bytes object. -/
def PyObject.unitCount : PyObject → Nat
  | .unicode units => units.length
  | .bytes octets => octets.length
  | .other _ => 0

/-- The data slots of a returned string: the slots before slot `length`. -/
def PGFT_String.scalars (s : PGFT_String) : List (Option Nat) :=
  s.data.take s.length.toNat

/-- The merging loop (lines 108-113) once more, with a record of its
iterations: `i` is the read index, and each iteration adds the pair of its
read index and the write index of its store to `tr`. -/
def mergeLoopTraced (T : Target) : List Nat → Nat → Nat → List (Option Nat) →
    List (Nat × Nat) → Except Failure (Nat × List (Option Nat) × List (Nat × Nat))
  | [], _, j, dst, tr => .ok (j, dst, tr)
  | c :: rest, i, j, dst, tr =>
    if UNICODE_HSA_START ≤ c ∧ c ≤ UNICODE_HSA_END then
      match rest with
      | [] => .error .outOfBounds
      | lo :: rest2 =>
        let c1 := ((((c &&& 0x3FF) <<< 10) ||| (lo &&& 0x3FF)) + 0x10000) % 2 ^ T.unicodeBits
        match store dst j (toPGFT_char c1) with
        | .error e => .error e
        | .ok dst1 => mergeLoopTraced T rest2 (i + 1 + 1) (j + 1) dst1 (tr ++ [(i, j)])
    else
      match store dst j (toPGFT_char c) with
      | .error e => .error e
      | .ok dst1 => mergeLoopTraced T rest (i + 1) (j + 1) dst1 (tr ++ [(i, j)])

/-- The iterations of the merging loop by read and write index, from the
units alone. -/
def mergeSteps : List Nat → Nat → Nat → List (Nat × Nat)
  | [], _, _ => []
  | c :: rest, i, j =>
    if UNICODE_HSA_START ≤ c ∧ c ≤ UNICODE_HSA_END then
      match rest with
      | [] => [(i, j)]
      | _ :: rest2 => (i, j) :: mergeSteps rest2 (i + 1 + 1) (j + 1)
    else (i, j) :: mergeSteps rest (i + 1) (j + 1)

/-- The reference decoding, read from left to right: a unit `h` in
`[0xD800, 0xD8FF]` with the unit `l` after it gives the one scalar
`((h & 0x3FF) << 10 | (l & 0x3FF)) + 0x10000` and two units are passed; any
other unit gives itself and one unit is passed. There is no decoding when a
unit in `[0xD800, 0xD8FF]` is the last one. -/
def referenceDecode : List Nat → Option (List Nat)
  | [] => some []
  | h :: rest =>
    if 0xD800 ≤ h ∧ h ≤ 0xD8FF then
      match rest with
      | [] => none
      | l :: rest2 =>
        (referenceDecode rest2).map
          (((((h &&& 0x3FF) <<< 10) ||| (l &&& 0x3FF)) + 0x10000) :: ·)
    else (referenceDecode rest).map (h :: ·)

/-! ## Buffers: a store followed by further stores -/

theorem store_ok (dst : List (Option Nat)) (j v : Nat) (h : j < dst.length) :
    store dst j v = .ok (dst.set j (some v)) := by
  simp [store, h]

theorem take_succ_set (dst : List (Option Nat)) (j : Nat) (x : Option Nat)
    (h : j < dst.length) : (dst.set j x).take (j + 1) = dst.take j ++ [x] := by
  rw [List.set_eq_take_append_cons_drop, if_pos h]
  have hl : (List.take j dst).length = j := by simp; omega
  rw [List.take_append_eq_append_take, hl]
  simp [List.take_take]

theorem drop_succ_set (dst : List (Option Nat)) (j n : Nat) (x : Option Nat) :
    (dst.set j x).drop (j + 1 + n) = dst.drop (j + 1 + n) := by
  rw [List.drop_set_of_lt]; omega

/-- After the store at `j`, a block `vs` written from `j + 1` on leaves the
buffer as `dst` with `v :: vs` written from `j` on. -/
theorem set_then_block (dst : List (Option Nat)) (j : Nat) (x : Option Nat)
    (vs : List (Option Nat)) (h : j < dst.length) :
    (dst.set j x).take (j + 1) ++ vs ++ (dst.set j x).drop (j + 1 + vs.length)
      = dst.take j ++ (x :: vs) ++ dst.drop (j + (x :: vs).length) := by
  rw [take_succ_set dst j x h, drop_succ_set]
  simp [Nat.add_assoc, Nat.add_comm 1]

/-! ## The three filling loops, as one block written into the buffer -/

theorem copyLoop_eq (src : List Nat) : ∀ (i : Nat) (dst : List (Option Nat)),
    i + src.length ≤ dst.length →
    copyLoop src i dst
      = .ok (dst.take i ++ src.map (fun c => some (toPGFT_char c))
          ++ dst.drop (i + src.length)) := by
  induction src with
  | nil => intro i dst _; simp [copyLoop]
  | cons c rest ih =>
    intro i dst h
    have hi : i < dst.length := by simp at h; omega
    have h1 : i + 1 + rest.length ≤ (dst.set i (some (toPGFT_char c))).length := by
      simp at h ⊢; omega
    rw [copyLoop, store_ok dst i _ hi]
    simp only []
    rw [ih (i + 1) _ h1]
    have := set_then_block dst i (some (toPGFT_char c))
      (rest.map (fun c => some (toPGFT_char c))) hi
    simp only [List.length_map] at this
    rw [this]; simp

theorem bytesLoop_eq (T : Target) (src : List Nat) : ∀ (i : Nat) (dst : List (Option Nat)),
    i + src.length ≤ dst.length →
    bytesLoop T src i dst
      = .ok (dst.take i ++ src.map (fun b => some (charToPGFT_char (charValue T b)))
          ++ dst.drop (i + src.length)) := by
  induction src with
  | nil => intro i dst _; simp [bytesLoop]
  | cons b rest ih =>
    intro i dst h
    have hi : i < dst.length := by simp at h; omega
    have h1 : i + 1 + rest.length
        ≤ (dst.set i (some (charToPGFT_char (charValue T b)))).length := by
      simp at h ⊢; omega
    rw [bytesLoop, store_ok dst i _ hi]
    simp only []
    rw [ih (i + 1) _ h1]
    have := set_then_block dst i (some (charToPGFT_char (charValue T b)))
      (rest.map (fun b => some (charToPGFT_char (charValue T b)))) hi
    simp only [List.length_map] at this
    rw [this]; simp

theorem mergeLoop_eq (T : Target) : ∀ (src : List Nat) (vs : List Nat) (j : Nat)
    (dst : List (Option Nat)), mergeValues T src = some vs → j + vs.length ≤ dst.length →
    mergeLoop T src j dst
      = .ok (j + vs.length, dst.take j ++ vs.map some ++ dst.drop (j + vs.length))
  | [], vs, j, dst, hv, _ => by
    simp [mergeValues] at hv
    subst hv
    simp [mergeLoop]
  | [c], vs, j, dst, hv, hl => by
    by_cases hc : UNICODE_HSA_START ≤ c ∧ c ≤ UNICODE_HSA_END
    · simp [mergeValues, hc] at hv
    · simp [mergeValues, hc] at hv
      subst hv
      have hj : j < dst.length := by simp at hl; omega
      simp only [mergeLoop, hc, if_false, store_ok dst j _ hj]
      have := set_then_block dst j (some (toPGFT_char c)) [] hj
      simp at this ⊢
      simpa using this
  | c :: lo :: rest2, vs, j, dst, hv, hl => by
    by_cases hc : UNICODE_HSA_START ≤ c ∧ c ≤ UNICODE_HSA_END
    · simp only [mergeValues, hc, and_self, if_true, Option.map_eq_some'] at hv
      obtain ⟨ws, hws, rfl⟩ := hv
      have hj : j < dst.length := by simp at hl; omega
      simp only [mergeLoop, hc, and_self, if_true, store_ok dst j _ hj]
      rw [mergeLoop_eq T rest2 ws (j + 1) _ hws (by simp at hl ⊢; omega)]
      have := set_then_block dst j (some (toPGFT_char
        (((((c &&& 0x3FF) <<< 10) ||| (lo &&& 0x3FF)) + 0x10000) % 2 ^ T.unicodeBits)))
        (ws.map some) hj
      simp only [List.length_map] at this
      rw [this]; simp [Nat.add_assoc, Nat.add_comm 1]
    · simp only [mergeValues, hc, if_false, Option.map_eq_some'] at hv
      obtain ⟨ws, hws, rfl⟩ := hv
      have hj : j < dst.length := by simp at hl; omega
      simp only [mergeLoop, hc, if_false, store_ok dst j _ hj]
      rw [mergeLoop_eq T (lo :: rest2) ws (j + 1) _ hws (by simp at hl ⊢; omega)]
      have := set_then_block dst j (some (toPGFT_char c)) (ws.map some) hj
      simp only [List.length_map] at this
      rw [this]; simp [Nat.add_assoc, Nat.add_comm 1]

/-! ## The validation loop -/

/-- One iteration at a byte-order mark. -/
theorem validateLoop_bom (obj : PyObject) (c : Nat) (rest : List Nat) (i : Nat) (len : Int)
    (hb : c = UNICODE_BOM_NATIVE ∨ c = UNICODE_BOM_SWAPPED) :
    validateLoop obj (c :: rest) i len
      = .error (.unicodeEncodeError "utf-32" obj i (i + 1) "no BOM handling") := by
  cases rest <;> simp [validateLoop, hb, Err_UnicodeEncodeError]

/-- One iteration at a unit that takes neither of the two tests. -/
theorem validateLoop_plain (obj : PyObject) (c : Nat) (rest : List Nat) (i : Nat) (len : Int)
    (hb : ¬(c = UNICODE_BOM_NATIVE ∨ c = UNICODE_BOM_SWAPPED))
    (hs : ¬(UNICODE_SA_START ≤ c ∧ c < UNICODE_SA_END)) :
    validateLoop obj (c :: rest) i len = validateLoop obj rest (i + 1) len := by
  cases rest <;> simp only [validateLoop, hb, hs, if_false]

/-- One iteration at a unit inside the tested area and above `UNICODE_HSA_END`. -/
theorem validateLoop_above (obj : PyObject) (c : Nat) (rest : List Nat) (i : Nat) (len : Int)
    (hb : ¬(c = UNICODE_BOM_NATIVE ∨ c = UNICODE_BOM_SWAPPED))
    (hs : UNICODE_SA_START ≤ c ∧ c < UNICODE_SA_END) (hh : c > UNICODE_HSA_END) :
    validateLoop obj (c :: rest) i len
      = .error (.unicodeEncodeError "utf-32" obj i (i + 1)
          "missing high-surrogate code point") := by
  cases rest <;> simp [validateLoop, hb, hs, hh, Err_UnicodeEncodeError]

/-- One iteration at a leading unit that is the last unit. -/
theorem validateLoop_lead_last (obj : PyObject) (c : Nat) (i : Nat) (len : Int)
    (hb : ¬(c = UNICODE_BOM_NATIVE ∨ c = UNICODE_BOM_SWAPPED))
    (hs : UNICODE_SA_START ≤ c ∧ c < UNICODE_SA_END) (hh : ¬ c > UNICODE_HSA_END) :
    validateLoop obj [c] i len
      = .error (.unicodeEncodeError "utf-32" obj i (i + 1)
          "missing low-surrogate code point") := by
  simp [validateLoop, hb, hs, hh, Err_UnicodeEncodeError]

/-- One iteration at a leading unit whose follower is refused. -/
theorem validateLoop_lead_bad (obj : PyObject) (c c2 : Nat) (rest2 : List Nat) (i : Nat)
    (len : Int) (hb : ¬(c = UNICODE_BOM_NATIVE ∨ c = UNICODE_BOM_SWAPPED))
    (hs : UNICODE_SA_START ≤ c ∧ c < UNICODE_SA_END) (hh : ¬ c > UNICODE_HSA_END)
    (hl : c2 < UNICODE_LSA_START ∨ c2 > UNICODE_LSA_END) :
    validateLoop obj (c :: c2 :: rest2) i len
      = .error (.unicodeEncodeError "utf-32" obj (i + 1) (i + 2)
          "expected low-surrogate code point") := by
  simp [validateLoop, hb, hs, hh, hl, Err_UnicodeEncodeError]

/-- One iteration at a leading unit whose follower is accepted. -/
theorem validateLoop_pair (obj : PyObject) (c c2 : Nat) (rest2 : List Nat) (i : Nat)
    (len : Int) (hb : ¬(c = UNICODE_BOM_NATIVE ∨ c = UNICODE_BOM_SWAPPED))
    (hs : UNICODE_SA_START ≤ c ∧ c < UNICODE_SA_END) (hh : ¬ c > UNICODE_HSA_END)
    (hl : ¬(c2 < UNICODE_LSA_START ∨ c2 > UNICODE_LSA_END)) :
    validateLoop obj (c :: c2 :: rest2) i len = validateLoop obj rest2 (i + 2) (len - 1) := by
  simp only [validateLoop, hb, hs, hh, hl, if_false, if_true, and_self]

/-- A prefix that the loop accepts is walked through whole: the loop is then
at the first unit after it, whatever the object named in errors, the starting
index and the starting `len`. -/
theorem validateLoop_append (obj obj' : PyObject) : ∀ (pre rest : List Nat) (i i' : Nat)
    (len len' l : Int), validateLoop obj pre i len = .ok l →
    validateLoop obj' (pre ++ rest) i' len'
      = validateLoop obj' rest (i' + pre.length) (len' - (len - l))
  | [], rest, i, i', len, len', l, h => by
    simp [validateLoop] at h
    subst h
    simp
  | [c], rest, i, i', len, len', l, h => by
    by_cases hb : c = UNICODE_BOM_NATIVE ∨ c = UNICODE_BOM_SWAPPED
    · simp [validateLoop_bom _ _ _ _ _ hb] at h
    · by_cases hs : UNICODE_SA_START ≤ c ∧ c < UNICODE_SA_END
      · by_cases hh : c > UNICODE_HSA_END
        · simp [validateLoop_above _ _ _ _ _ hb hs hh] at h
        · simp [validateLoop_lead_last _ _ _ _ hb hs hh] at h
      · rw [validateLoop_plain _ _ _ _ _ hb hs] at h
        simp only [validateLoop, Except.ok.injEq] at h
        subst h
        simp only [List.singleton_append, validateLoop_plain _ _ _ _ _ hb hs,
          List.length_singleton, sub_self, sub_zero]
  | c :: c2 :: rest2, rest, i, i', len, len', l, h => by
    by_cases hb : c = UNICODE_BOM_NATIVE ∨ c = UNICODE_BOM_SWAPPED
    · simp [validateLoop_bom _ _ _ _ _ hb] at h
    · by_cases hs : UNICODE_SA_START ≤ c ∧ c < UNICODE_SA_END
      · by_cases hh : c > UNICODE_HSA_END
        · simp [validateLoop_above _ _ _ _ _ hb hs hh] at h
        · by_cases hl : c2 < UNICODE_LSA_START ∨ c2 > UNICODE_LSA_END
          · simp [validateLoop_lead_bad _ _ _ _ _ _ hb hs hh hl] at h
          · rw [validateLoop_pair _ _ _ _ _ _ hb hs hh hl] at h
            have ih := validateLoop_append obj obj' rest2 rest (i + 2) (i' + 2)
              (len - 1) (len' - 1) l h
            have e : (c :: c2 :: rest2) ++ rest = c :: c2 :: (rest2 ++ rest) := rfl
            rw [e, validateLoop_pair _ _ _ _ _ _ hb hs hh hl, ih]
            have e1 : i' + 2 + rest2.length = i' + (c :: c2 :: rest2).length := by
              simp only [List.length_cons]; omega
            have e2 : len' - 1 - (len - 1 - l) = len' - (len - l) := by omega
            rw [e1, e2]
      · rw [validateLoop_plain _ _ _ _ _ hb hs] at h
        have ih := validateLoop_append obj obj' (c2 :: rest2) rest (i + 1) (i' + 1)
          len len' l h
        have e : (c :: c2 :: rest2) ++ rest = c :: ((c2 :: rest2) ++ rest) := rfl
        rw [e, validateLoop_plain _ _ _ _ _ hb hs, ih]
        have e1 : i' + 1 + (c2 :: rest2).length = i' + (c :: c2 :: rest2).length := by
          simp only [List.length_cons]; omega
        rw [e1]

/-- Whether the loop accepts does not depend on the object named in errors,
on the starting index or on the starting `len`. -/
theorem validateLoop_ok_any (obj obj' : PyObject) (src : List Nat) (i i' : Nat)
    (len len' l : Int) (h : validateLoop obj src i len = .ok l) :
    validateLoop obj' src i' len' = .ok (len' - (len - l)) := by
  have := validateLoop_append obj obj' src [] i i' len len' l h
  simpa [validateLoop] using this

/-! ## The merging loop after the validation loop -/

theorem mergeValues_plain (T : Target) (c : Nat) (rest : List Nat)
    (hc : ¬(UNICODE_HSA_START ≤ c ∧ c ≤ UNICODE_HSA_END)) :
    mergeValues T (c :: rest) = (mergeValues T rest).map (toPGFT_char c :: ·) := by
  cases rest <;> simp only [mergeValues, hc, if_false]

theorem mergeValues_pair (T : Target) (c lo : Nat) (rest2 : List Nat)
    (hc : UNICODE_HSA_START ≤ c ∧ c ≤ UNICODE_HSA_END) :
    mergeValues T (c :: lo :: rest2) = (mergeValues T rest2).map
      (toPGFT_char (((((c &&& 0x3FF) <<< 10) ||| (lo &&& 0x3FF)) + 0x10000)
        % 2 ^ T.unicodeBits) :: ·) := by
  simp only [mergeValues, hc, and_self, if_true]

/-- A unit the validation loop steps over singly is not a leading unit for the
merging loop. -/
theorem not_lead_of_plain (c : Nat) (hs : ¬(UNICODE_SA_START ≤ c ∧ c < UNICODE_SA_END)) :
    ¬(UNICODE_HSA_START ≤ c ∧ c ≤ UNICODE_HSA_END) := by
  simp only [UNICODE_SA_START, UNICODE_SA_END, UNICODE_HSA_START, UNICODE_HSA_END] at *
  omega

/-- A unit the validation loop takes as the first of a pair is a leading unit
for the merging loop. -/
theorem lead_of_pair (c : Nat) (hs : UNICODE_SA_START ≤ c ∧ c < UNICODE_SA_END)
    (hh : ¬ c > UNICODE_HSA_END) : UNICODE_HSA_START ≤ c ∧ c ≤ UNICODE_HSA_END := by
  simp only [UNICODE_SA_START, UNICODE_SA_END, UNICODE_HSA_START, UNICODE_HSA_END] at *
  omega

/-- On units the validation loop accepts, the merging loop never reads past
the end, and it stores as many values as the validation loop counted. -/
theorem mergeValues_of_validate (T : Target) (obj : PyObject) : ∀ (src : List Nat) (i : Nat)
    (len l : Int), validateLoop obj src i len = .ok l →
    ∃ vs, mergeValues T src = some vs ∧ (vs.length : Int) = src.length - (len - l)
  | [], i, len, l, h => by
    simp [validateLoop] at h
    subst h
    exact ⟨[], by simp [mergeValues]⟩
  | [c], i, len, l, h => by
    by_cases hb : c = UNICODE_BOM_NATIVE ∨ c = UNICODE_BOM_SWAPPED
    · simp [validateLoop_bom _ _ _ _ _ hb] at h
    · by_cases hs : UNICODE_SA_START ≤ c ∧ c < UNICODE_SA_END
      · by_cases hh : c > UNICODE_HSA_END
        · simp [validateLoop_above _ _ _ _ _ hb hs hh] at h
        · simp [validateLoop_lead_last _ _ _ _ hb hs hh] at h
      · rw [validateLoop_plain _ _ _ _ _ hb hs] at h
        simp only [validateLoop, Except.ok.injEq] at h
        subst h
        refine ⟨[toPGFT_char c], ?_, by simp⟩
        rw [mergeValues_plain T c [] (not_lead_of_plain c hs)]
        simp [mergeValues]
  | c :: c2 :: rest2, i, len, l, h => by
    by_cases hb : c = UNICODE_BOM_NATIVE ∨ c = UNICODE_BOM_SWAPPED
    · simp [validateLoop_bom _ _ _ _ _ hb] at h
    · by_cases hs : UNICODE_SA_START ≤ c ∧ c < UNICODE_SA_END
      · by_cases hh : c > UNICODE_HSA_END
        · simp [validateLoop_above _ _ _ _ _ hb hs hh] at h
        · by_cases hl : c2 < UNICODE_LSA_START ∨ c2 > UNICODE_LSA_END
          · simp [validateLoop_lead_bad _ _ _ _ _ _ hb hs hh hl] at h
          · rw [validateLoop_pair _ _ _ _ _ _ hb hs hh hl] at h
            obtain ⟨ws, hws, hlen⟩ := mergeValues_of_validate T obj rest2 (i + 2) (len - 1) l h
            refine ⟨toPGFT_char (((((c &&& 0x3FF) <<< 10) ||| (c2 &&& 0x3FF)) + 0x10000)
              % 2 ^ T.unicodeBits) :: ws, ?_, ?_⟩
            · rw [mergeValues_pair T c c2 rest2 (lead_of_pair c hs hh), hws]; rfl
            · simp only [List.length_cons, Nat.cast_add, Nat.cast_one]; omega
      · rw [validateLoop_plain _ _ _ _ _ hb hs] at h
        obtain ⟨ws, hws, hlen⟩ := mergeValues_of_validate T obj (c2 :: rest2) (i + 1) len l h
        refine ⟨toPGFT_char c :: ws, ?_, ?_⟩
        · rw [mergeValues_plain T c _ (not_lead_of_plain c hs), hws]; rfl
        · simp only [List.length_cons, Nat.cast_add, Nat.cast_one] at hlen ⊢; omega

/-! ## The function as a whole -/

/-- A unicode object with `surrogates` set: what the validation loop refuses,
the function refuses with the same exception, before any allocation. -/
theorem encode_of_validate_error (T : Target) (src : List Nat) (e : Failure)
    (h : validateLoop (.unicode src) src 0 src.length = .error e) :
    PGFT_EncodePyString T (.unicode src) true = .error e := by
  simp [PGFT_EncodePyString, h]

/-- A unicode object with `surrogates` set: a string comes back only when the
validation loop accepted. -/
theorem validate_of_encode_ok (T : Target) (src : List Nat) (r : PGFT_String)
    (h : PGFT_EncodePyString T (.unicode src) true = .ok r) :
    ∃ l, validateLoop (.unicode src) src 0 src.length = .ok l := by
  cases hv : validateLoop (.unicode src) src 0 src.length with
  | error e => rw [encode_of_validate_error T src e hv] at h; cases h
  | ok l => exact ⟨l, rfl⟩

/-- A unicode object with `surrogates` set, accepted by the validation loop,
and an allocation that succeeds: the string holds the values of the merging
loop and the sentinel, and its length is the number of those values. -/
theorem encode_of_validate_ok (T : Target) (src : List Nat) (l : Int)
    (h : validateLoop (.unicode src) src 0 src.length = .ok l)
    (hm : T.mallocOk (SIZEOF_PGFT_STRING l) = true) :
    ∃ vs, mergeValues T src = some vs ∧ (vs.length : Int) = l ∧
      PGFT_EncodePyString T (.unicode src) true = .ok ⟨l, vs.map some ++ [some 0]⟩ := by
  obtain ⟨vs, hvs, hlen⟩ := mergeValues_of_validate T _ src 0 src.length l h
  have hl : (vs.length : Int) = l := by omega
  refine ⟨vs, hvs, hl, ?_⟩
  have hn : (l + 1).toNat = vs.length + 1 := by omega
  have hn' : l.toNat = vs.length := by omega
  have hmerge := mergeLoop_eq T src vs 0 (List.replicate (vs.length + 1) none) hvs (by simp)
  rw [SIZEOF_PGFT_STRING, hn] at hm
  simp only [PGFT_EncodePyString, h, if_true, PGFT_malloc, SIZEOF_PGFT_STRING, hm, hn, hmerge, Except.map, finish,
    hn']
  rw [store_ok _ _ _ (by simp)]
  simp [List.set_eq_take_append_cons_drop]

/-- A unicode object with `surrogates` clear and an allocation that succeeds:
the units, each cast to `PGFT_char`, and the sentinel. -/
theorem encode_raw (T : Target) (src : List Nat) (hm : T.mallocOk (src.length + 1) = true) :
    PGFT_EncodePyString T (.unicode src) false
      = .ok ⟨src.length, src.map (fun c => some (toPGFT_char c)) ++ [some 0]⟩ := by
  have hn : ((src.length : Int) + 1).toNat = src.length + 1 := by omega
  have hcopy := copyLoop_eq src 0 (List.replicate (src.length + 1) none) (by simp)
  simp only [PGFT_EncodePyString, Bool.false_eq_true, if_false, PGFT_malloc,
    SIZEOF_PGFT_STRING, hn, hm, if_true,
    hcopy, finish, Int.toNat_ofNat]
  rw [store_ok _ _ _ (by simp)]
  simp [List.set_eq_take_append_cons_drop]

/-- A bytes object and an allocation that succeeds: the octets, each read as a
`char` and cast to `PGFT_char`, and the sentinel. -/
theorem encode_bytes (T : Target) (src : List Nat) (surrogates : Bool)
    (hm : T.mallocOk (src.length + 1) = true) :
    PGFT_EncodePyString T (.bytes src) surrogates
      = .ok ⟨src.length,
          src.map (fun b => some (charToPGFT_char (charValue T b))) ++ [some 0]⟩ := by
  have hn : ((src.length : Int) + 1).toNat = src.length + 1 := by omega
  have hloop := bytesLoop_eq T src 0 (List.replicate (src.length + 1) none) (by simp)
  simp only [PGFT_EncodePyString, PGFT_malloc, SIZEOF_PGFT_STRING, hn, hm, if_true, hloop,
    finish,
    Int.toNat_ofNat]
  rw [store_ok _ _ _ (by simp)]
  simp [List.set_eq_take_append_cons_drop]

/-- A unicode object with `surrogates` set, made of an accepted prefix and
further units: when the validation loop, placed at the first of the further
units, refuses, the function refuses with that exception. -/
theorem encode_after_prefix (T : Target) (pre rest : List Nat) (r : PGFT_String)
    (e : Failure) (hpre : PGFT_EncodePyString T (.unicode pre) true = .ok r)
    (hstep : ∀ len, validateLoop (.unicode (pre ++ rest)) rest pre.length len = .error e) :
    PGFT_EncodePyString T (.unicode (pre ++ rest)) true = .error e := by
  obtain ⟨l, hl⟩ := validate_of_encode_ok T pre r hpre
  apply encode_of_validate_error
  rw [validateLoop_append _ (.unicode (pre ++ rest)) pre rest 0 0 _ _ l hl]
  simpa using hstep _

/-! ## A pair of units on its own -/

/-- Two units, the first in `[0xD800, 0xD8FF]` and the second in
`[0xDC00, 0xDFFF]`, with `surrogates` set and an allocation that succeeds: one
scalar, the merged value reduced to the width of `Py_UNICODE`. -/
theorem encode_pair (T : Target) (h lo : Nat) (hm : T.mallocOk 2 = true)
    (hh : 0xD800 ≤ h ∧ h ≤ 0xD8FF) (hl : 0xDC00 ≤ lo ∧ lo ≤ 0xDFFF) :
    PGFT_EncodePyString T (.unicode [h, lo]) true
      = .ok ⟨1, [some (toPGFT_char (((((h &&& 0x3FF) <<< 10) ||| (lo &&& 0x3FF)) + 0x10000)
          % 2 ^ T.unicodeBits)), some 0]⟩ := by
  have hv : validateLoop (.unicode [h, lo]) [h, lo] 0 ([h, lo] : List Nat).length = .ok 1 := by
    rw [validateLoop_pair]
    · simp [validateLoop]
    · simp only [UNICODE_BOM_NATIVE, UNICODE_BOM_SWAPPED]; omega
    · simp only [UNICODE_SA_START, UNICODE_SA_END]; omega
    · simp only [UNICODE_HSA_END]; omega
    · simp only [UNICODE_LSA_START, UNICODE_LSA_END]; omega
  obtain ⟨vs, hvs, _, henc⟩ := encode_of_validate_ok T [h, lo] 1 hv hm
  rw [mergeValues_pair T h lo [] (by simp only [UNICODE_HSA_START, UNICODE_HSA_END]; omega)]
    at hvs
  simp only [mergeValues, Option.map_some', Option.some.injEq] at hvs
  rw [henc, ← hvs]
  rfl

/-- C1: on a narrow build (16-bit `Py_UNICODE`) the units `[0xD800, 0xDC00]`
with `surrogates` set give a string of length 1 whose one scalar is `0`, while
`((0xD800 & 0x3FF) << 10 | (0xDC00 & 0x3FF)) + 0x10000` is `0x10000`: the
merged value passes through the 16-bit variable `c` and loses what is above
bit 15. On a wide build the same units give `0x10000`. -/
theorem C1_pair_cut_to_unit_width :
    PGFT_EncodePyString narrowSigned (.unicode [0xD800, 0xDC00]) true
        = .ok ⟨1, [some 0, some 0]⟩
      ∧ (((0xD800 &&& 0x3FF) <<< 10) ||| (0xDC00 &&& 0x3FF)) + 0x10000 = 0x10000
      ∧ PGFT_EncodePyString wideSigned (.unicode [0xD800, 0xDC00]) true
        = .ok ⟨1, [some 0x10000, some 0]⟩ :=
  ⟨rfl, rfl, rfl⟩

/-! ## Bytes objects -/

/-- C2: where plain `char` is signed, the octets `[0xC3, 0xA9]` give the
scalars `0xFFFFFFC3` and `0xFFFFFFA9`: each octet from `0x80` on is read as a
negative `char` and the cast to `PGFT_char` extends its sign. Where `char` is
unsigned the same octets give `0xC3` and `0xA9`. -/
theorem C2_bytes_sign_extended :
    PGFT_EncodePyString narrowSigned (.bytes [0xC3, 0xA9]) true
        = .ok ⟨2, [some 0xFFFFFFC3, some 0xFFFFFFA9, some 0]⟩
      ∧ PGFT_EncodePyString narrowUnsigned (.bytes [0xC3, 0xA9]) true
        = .ok ⟨2, [some 0xC3, some 0xA9, some 0]⟩ :=
  ⟨rfl, rfl⟩

/-- With an unsigned `char`, octets come out as they are. -/
theorem bytes_unsigned (T : Target) (src : List Nat) (surrogates : Bool)
    (hs : T.charSigned = false) (hm : T.mallocOk (src.length + 1) = true)
    (hwf : PyObject.wellFormed T (.bytes src)) :
    PGFT_EncodePyString T (.bytes src) surrogates
      = .ok ⟨src.length, src.map some ++ [some 0]⟩ := by
  rw [encode_bytes T src surrogates hm]
  have : src.map (fun b => some (charToPGFT_char (charValue T b))) = src.map some := by
    apply List.map_congr_left
    intro b hb
    have hb' : b < 256 := hwf b hb
    simp only [charValue, hs, Bool.false_eq_true, false_and, if_false, charToPGFT_char]
    congr 1
    omega
  rw [this]

/-- With a signed `char`, an octet from `0x80` on comes out with the 24 bits
above it set. -/
theorem bytes_signed_high (T : Target) (b : Nat) (hs : T.charSigned = true)
    (hlo : 128 ≤ b) (hhi : b < 256) :
    charToPGFT_char (charValue T b) = 0xFFFFFF00 + b := by
  simp only [charValue, hs, hlo, and_self, if_true, charToPGFT_char]
  omega

/-! ## What the validation loop refuses -/

/-- C3: the unit `0xDFFF` alone, with `surrogates` set, is not refused: the
test `c < UNICODE_SA_END` leaves it outside the tested area, and it comes back
as a scalar. -/
theorem C3_last_low_surrogate_accepted :
    PGFT_EncodePyString narrowSigned (.unicode [0xDFFF]) true
      = .ok ⟨1, [some 0xDFFF, some 0]⟩ :=
  rfl

/-- After an accepted prefix, a unit above `0xD8FF` and below `0xDFFF` is
refused as a missing high surrogate, with the range of that one unit. -/
theorem missing_high_surrogate (T : Target) (pre post : List Nat) (c : Nat)
    (r : PGFT_String) (hpre : PGFT_EncodePyString T (.unicode pre) true = .ok r)
    (hlo : 0xD8FF < c) (hhi : c < 0xDFFF) :
    PGFT_EncodePyString T (.unicode (pre ++ c :: post)) true
      = .error (.unicodeEncodeError "utf-32" (.unicode (pre ++ c :: post)) pre.length
          (pre.length + 1) "missing high-surrogate code point") := by
  apply encode_after_prefix T pre (c :: post) r _ hpre
  intro len
  apply validateLoop_above
  · simp only [UNICODE_BOM_NATIVE, UNICODE_BOM_SWAPPED]; omega
  · simp only [UNICODE_SA_START, UNICODE_SA_END]; omega
  · simp only [UNICODE_HSA_END]; omega

/-- No unit of what the validation loop accepts is a byte-order mark. -/
theorem no_bom_of_validate (obj : PyObject) : ∀ (src : List Nat) (i : Nat) (len l : Int),
    validateLoop obj src i len = .ok l → ∀ u ∈ src, u ≠ 0xFEFF ∧ u ≠ 0xFFFE
  | [], _, _, _, _ => by simp
  | [c], i, len, l, h => by
    by_cases hb : c = UNICODE_BOM_NATIVE ∨ c = UNICODE_BOM_SWAPPED
    · simp [validateLoop_bom _ _ _ _ _ hb] at h
    · intro u hu
      simp only [List.mem_singleton] at hu
      subst hu
      simp only [UNICODE_BOM_NATIVE, UNICODE_BOM_SWAPPED] at hb
      omega
  | c :: c2 :: rest2, i, len, l, h => by
    by_cases hb : c = UNICODE_BOM_NATIVE ∨ c = UNICODE_BOM_SWAPPED
    · simp [validateLoop_bom _ _ _ _ _ hb] at h
    · have hc : c ≠ 0xFEFF ∧ c ≠ 0xFFFE := by
        simp only [UNICODE_BOM_NATIVE, UNICODE_BOM_SWAPPED] at hb
        omega
      by_cases hs : UNICODE_SA_START ≤ c ∧ c < UNICODE_SA_END
      · by_cases hh : c > UNICODE_HSA_END
        · simp [validateLoop_above _ _ _ _ _ hb hs hh] at h
        · by_cases hl : c2 < UNICODE_LSA_START ∨ c2 > UNICODE_LSA_END
          · simp [validateLoop_lead_bad _ _ _ _ _ _ hb hs hh hl] at h
          · rw [validateLoop_pair _ _ _ _ _ _ hb hs hh hl] at h
            have ih := no_bom_of_validate obj rest2 _ _ _ h
            have hc2 : c2 ≠ 0xFEFF ∧ c2 ≠ 0xFFFE := by
              simp only [UNICODE_LSA_START, UNICODE_LSA_END] at hl
              omega
            intro u hu
            simp only [List.mem_cons] at hu
            rcases hu with rfl | rfl | hu
            · exact hc
            · exact hc2
            · exact ih u hu
      · rw [validateLoop_plain _ _ _ _ _ hb hs] at h
        have ih := no_bom_of_validate obj (c2 :: rest2) _ _ _ h
        intro u hu
        rcases List.mem_cons.1 hu with rfl | hu
        · exact hc
        · exact ih u hu

/-- C4: with `surrogates` set, a unit `0xFEFF` or `0xFFFE` after an accepted
prefix is refused with "no BOM handling" and the range of that one unit; and
no unicode object that holds one of the two units gives a string. -/
theorem C4_bom_refused (T : Target) :
    (∀ (pre post : List Nat) (c : Nat) (r : PGFT_String),
      PGFT_EncodePyString T (.unicode pre) true = .ok r → (c = 0xFEFF ∨ c = 0xFFFE) →
      PGFT_EncodePyString T (.unicode (pre ++ c :: post)) true
        = .error (.unicodeEncodeError "utf-32" (.unicode (pre ++ c :: post)) pre.length
            (pre.length + 1) "no BOM handling"))
    ∧ (∀ (src : List Nat) (r : PGFT_String), (0xFEFF ∈ src ∨ 0xFFFE ∈ src) →
      PGFT_EncodePyString T (.unicode src) true ≠ .ok r) := by
  constructor
  · intro pre post c r hpre hc
    apply encode_after_prefix T pre (c :: post) r _ hpre
    intro len
    exact validateLoop_bom _ _ _ _ _ hc
  · intro src r hmem hok
    obtain ⟨l, hl⟩ := validate_of_encode_ok T src r hok
    have := no_bom_of_validate _ src _ _ _ hl
    rcases hmem with hm | hm
    · exact (this _ hm).1 rfl
    · exact (this _ hm).2 rfl

/-- C4 at `[0x41, 0xFEFF, 0x42]` and at `[0x41, 0xFFFE]`. -/
theorem C4_bom_refused_witness :
    PGFT_EncodePyString narrowSigned (.unicode [0x41]) true = .ok ⟨1, [some 0x41, some 0]⟩
    ∧ PGFT_EncodePyString narrowSigned (.unicode ([0x41] ++ 0xFEFF :: [0x42])) true
        = .error (.unicodeEncodeError "utf-32" (.unicode ([0x41] ++ 0xFEFF :: [0x42])) 1 2
            "no BOM handling")
    ∧ PGFT_EncodePyString narrowSigned (.unicode [0x41, 0xFFFE]) true
        ≠ .ok ⟨2, [some 0x41, some 0xFFFE, some 0]⟩ :=
  ⟨rfl,
   (C4_bom_refused narrowSigned).1 [0x41] [0x42] 0xFEFF ⟨1, [some 0x41, some 0]⟩ rfl
     (Or.inl rfl),
   (C4_bom_refused narrowSigned).2 [0x41, 0xFFFE] _ (Or.inr (by simp))⟩

/-- C5: with `surrogates` set, a last unit in `[0xD800, 0xD8FF]` after an
accepted prefix is refused with "missing low-surrogate code point" and the
range `[n - 1, n)`, `n` the number of units. -/
theorem C5_missing_low_surrogate (T : Target) (pre : List Nat) (h : Nat) (r : PGFT_String)
    (hpre : PGFT_EncodePyString T (.unicode pre) true = .ok r)
    (hlo : 0xD800 ≤ h) (hhi : h ≤ 0xD8FF) :
    PGFT_EncodePyString T (.unicode (pre ++ [h])) true
      = .error (.unicodeEncodeError "utf-32" (.unicode (pre ++ [h]))
          ((pre ++ [h]).length - 1) (pre ++ [h]).length
          "missing low-surrogate code point") := by
  have e : (pre ++ [h]).length = pre.length + 1 := by simp
  rw [e, Nat.add_sub_cancel]
  apply encode_after_prefix T pre [h] r _ hpre
  intro len
  apply validateLoop_lead_last
  · simp only [UNICODE_BOM_NATIVE, UNICODE_BOM_SWAPPED]; omega
  · simp only [UNICODE_SA_START, UNICODE_SA_END]; omega
  · simp only [UNICODE_HSA_END]; omega

/-- C5 at `[0x41, 0xD8FF]`. -/
theorem C5_missing_low_surrogate_witness :
    PGFT_EncodePyString narrowSigned (.unicode ([0x41] ++ [0xD8FF])) true
      = .error (.unicodeEncodeError "utf-32" (.unicode ([0x41] ++ [0xD8FF])) 1 2
          "missing low-surrogate code point") :=
  C5_missing_low_surrogate narrowSigned [0x41] 0xD8FF ⟨1, [some 0x41, some 0]⟩ rfl
    (by decide) (by decide)

/-- C6: with `surrogates` set, a unit in `[0xD800, 0xD8FF]` at index `i` after
an accepted prefix, followed by a unit outside `[0xDC00, 0xDFFF]`, is refused
with "expected low-surrogate code point" and the range `[i + 1, i + 2)` of the
follower. -/
theorem C6_expected_low_surrogate (T : Target) (pre post : List Nat) (h x : Nat)
    (r : PGFT_String) (hpre : PGFT_EncodePyString T (.unicode pre) true = .ok r)
    (hlo : 0xD800 ≤ h) (hhi : h ≤ 0xD8FF) (hx : x < 0xDC00 ∨ 0xDFFF < x) :
    PGFT_EncodePyString T (.unicode (pre ++ h :: x :: post)) true
      = .error (.unicodeEncodeError "utf-32" (.unicode (pre ++ h :: x :: post))
          (pre.length + 1) (pre.length + 2) "expected low-surrogate code point") := by
  apply encode_after_prefix T pre (h :: x :: post) r _ hpre
  intro len
  apply validateLoop_lead_bad
  · simp only [UNICODE_BOM_NATIVE, UNICODE_BOM_SWAPPED]; omega
  · simp only [UNICODE_SA_START, UNICODE_SA_END]; omega
  · simp only [UNICODE_HSA_END]; omega
  · simp only [UNICODE_LSA_START, UNICODE_LSA_END]; omega

/-- C6 at `[0x41, 0xD800, 0xFEFF, 0x42]`: the follower is a byte-order mark,
and the range is that of the follower. -/
theorem C6_expected_low_surrogate_witness :
    PGFT_EncodePyString narrowSigned (.unicode ([0x41] ++ 0xD800 :: 0xFEFF :: [0x42])) true
      = .error (.unicodeEncodeError "utf-32"
          (.unicode ([0x41] ++ 0xD800 :: 0xFEFF :: [0x42])) 2 3
          "expected low-surrogate code point") :=
  C6_expected_low_surrogate narrowSigned [0x41] [0x42] 0xD800 0xFEFF
    ⟨1, [some 0x41, some 0]⟩ rfl (by decide) (by decide) (Or.inr (by decide))

/-! ## The length -/

theorem validPairCount_cons (a : Nat) (l : List Nat) :
    validPairCount (a :: l) = (if validPairAt (a :: l) 0 then 1 else 0) + validPairCount l := by
  have e : (validPairAt (a :: l)) ∘ Nat.succ = validPairAt l := by
    funext k
    simp [validPairAt]
  simp only [validPairCount, List.length_cons, List.range_succ_eq_map, List.countP_cons,
    List.countP_map, e]
  omega

theorem validPairCount_nil : validPairCount [] = 0 := rfl

/-- A unit outside `[0xD800, 0xD8FF]` at the head starts no valid pair. -/
theorem validPairCount_cons_plain (a : Nat) (l : List Nat)
    (h : ¬(UNICODE_HSA_START ≤ a ∧ a ≤ UNICODE_HSA_END)) :
    validPairCount (a :: l) = validPairCount l := by
  rw [validPairCount_cons]
  have : validPairAt (a :: l) 0 = false := by
    simp only [UNICODE_HSA_START, UNICODE_HSA_END] at h
    cases l with
    | nil => simp [validPairAt]
    | cons b t =>
      simp only [validPairAt, List.getElem?_cons_zero, List.getElem?_cons_succ,
        decide_eq_false_iff_not]
      omega
  simp [this]

/-- An accepted pair at the head is one valid pair, and its second unit starts
none. -/
theorem validPairCount_pair (a b : Nat) (l : List Nat)
    (ha : UNICODE_HSA_START ≤ a ∧ a ≤ UNICODE_HSA_END)
    (hb : ¬(b < UNICODE_LSA_START ∨ b > UNICODE_LSA_END)) :
    validPairCount (a :: b :: l) = 1 + validPairCount l := by
  have hb' : ¬(UNICODE_HSA_START ≤ b ∧ b ≤ UNICODE_HSA_END) := by
    simp only [UNICODE_HSA_START, UNICODE_HSA_END, UNICODE_LSA_START, UNICODE_LSA_END] at *
    omega
  rw [validPairCount_cons, validPairCount_cons_plain b l hb']
  have : validPairAt (a :: b :: l) 0 = true := by
    simp only [UNICODE_HSA_START, UNICODE_HSA_END, UNICODE_LSA_START, UNICODE_LSA_END] at ha hb
    simp only [validPairAt, List.getElem?_cons_zero, List.getElem?_cons_succ,
      decide_eq_true_eq]
    omega
  simp [this]

/-- The validation loop takes one off `len` for each valid pair. -/
theorem validateLoop_len (obj : PyObject) : ∀ (src : List Nat) (i : Nat) (len l : Int),
    validateLoop obj src i len = .ok l → l = len - validPairCount src
  | [], i, len, l, h => by
    simp [validateLoop] at h
    simp [validPairCount_nil, h]
  | [c], i, len, l, h => by
    by_cases hb : c = UNICODE_BOM_NATIVE ∨ c = UNICODE_BOM_SWAPPED
    · simp [validateLoop_bom _ _ _ _ _ hb] at h
    · by_cases hs : UNICODE_SA_START ≤ c ∧ c < UNICODE_SA_END
      · by_cases hh : c > UNICODE_HSA_END
        · simp [validateLoop_above _ _ _ _ _ hb hs hh] at h
        · simp [validateLoop_lead_last _ _ _ _ hb hs hh] at h
      · rw [validateLoop_plain _ _ _ _ _ hb hs] at h
        simp only [validateLoop, Except.ok.injEq] at h
        rw [validPairCount_cons_plain c [] (not_lead_of_plain c hs), validPairCount_nil]
        simp [h]
  | c :: c2 :: rest2, i, len, l, h => by
    by_cases hb : c = UNICODE_BOM_NATIVE ∨ c = UNICODE_BOM_SWAPPED
    · simp [validateLoop_bom _ _ _ _ _ hb] at h
    · by_cases hs : UNICODE_SA_START ≤ c ∧ c < UNICODE_SA_END
      · by_cases hh : c > UNICODE_HSA_END
        · simp [validateLoop_above _ _ _ _ _ hb hs hh] at h
        · by_cases hl : c2 < UNICODE_LSA_START ∨ c2 > UNICODE_LSA_END
          · simp [validateLoop_lead_bad _ _ _ _ _ _ hb hs hh hl] at h
          · rw [validateLoop_pair _ _ _ _ _ _ hb hs hh hl] at h
            have ih := validateLoop_len obj rest2 _ _ _ h
            rw [validPairCount_pair c c2 rest2 (lead_of_pair c hs hh) hl]
            push_cast
            omega
      · rw [validateLoop_plain _ _ _ _ _ hb hs] at h
        have ih := validateLoop_len obj (c2 :: rest2) _ _ _ h
        rw [validPairCount_cons_plain c _ (not_lead_of_plain c hs)]
        exact ih

/-- The length field of a returned string is the `len` of the validation
loop. -/
theorem length_of_encode_ok (T : Target) (src : List Nat) (r : PGFT_String) (l : Int)
    (h : PGFT_EncodePyString T (.unicode src) true = .ok r)
    (hv : validateLoop (.unicode src) src 0 src.length = .ok l) : r.length = l := by
  simp only [PGFT_EncodePyString, hv, if_true] at h
  cases hm : PGFT_malloc T l with
  | error e => simp [hm] at h
  | ok dst =>
    simp only [hm] at h
    cases hl : Except.map Prod.snd (mergeLoop T src 0 dst) with
    | error e => simp [hl] at h
    | ok dst1 =>
      simp only [hl, finish] at h
      cases hs : store dst1 l.toNat 0 with
      | error e => simp [hs] at h
      | ok data =>
        simp only [hs, Except.ok.injEq] at h
        rw [← h]

/-- C7: with `surrogates` set, the length of a returned string is the number
of units less the number of valid pairs, a valid pair being an index `k` with
unit `k` in `[0xD800, 0xD8FF]` and unit `k + 1` in `[0xDC00, 0xDFFF]`. -/
theorem C7_length_is_units_less_pairs (T : Target) (src : List Nat) (r : PGFT_String)
    (h : PGFT_EncodePyString T (.unicode src) true = .ok r) :
    r.length = (src.length : Int) - (validPairCount src : Int) := by
  obtain ⟨l, hl⟩ := validate_of_encode_ok T src r h
  rw [length_of_encode_ok T src r l h hl]
  exact validateLoop_len _ src _ _ _ hl

/-- C7 at `[0x41, 0xD800, 0xDC00, 0xD8FF, 0xDFFF, 0x42]`: six units, two valid
pairs, length four. -/
theorem C7_length_is_units_less_pairs_witness :
    PGFT_EncodePyString wideSigned (.unicode [0x41, 0xD800, 0xDC00, 0xD8FF, 0xDFFF, 0x42]) true
      = .ok ⟨4, [some 0x41, some 0x10000, some 0x4FFFF, some 0x42, some 0]⟩
    ∧ validPairCount [0x41, 0xD800, 0xDC00, 0xD8FF, 0xDFFF, 0x42] = 2
    ∧ (⟨4, [some 0x41, some 0x10000, some 0x4FFFF, some 0x42, some 0]⟩ : PGFT_String).length
      = ((([0x41, 0xD800, 0xDC00, 0xD8FF, 0xDFFF, 0x42] : List Nat).length : Nat) : Int)
        - (validPairCount [0x41, 0xD800, 0xDC00, 0xD8FF, 0xDFFF, 0x42] : Int) :=
  ⟨rfl, by decide,
   C7_length_is_units_less_pairs wideSigned [0x41, 0xD800, 0xDC00, 0xD8FF, 0xDFFF, 0x42]
     ⟨4, [some 0x41, some 0x10000, some 0x4FFFF, some 0x42, some 0]⟩ rfl⟩

/-! ## Units that are neither surrogates nor byte-order marks -/

/-- The cast to `PGFT_char` leaves a unit of at most 32 bits as it is. -/
theorem toPGFT_char_unit (T : Target) (hw : T.unicodeBits ≤ 32) (u : Nat)
    (hu : u < 2 ^ T.unicodeBits) : toPGFT_char u = u := by
  have : 2 ^ T.unicodeBits ≤ 2 ^ 32 := Nat.pow_le_pow_right (by decide) hw
  exact Nat.mod_eq_of_lt (lt_of_lt_of_le hu this)

theorem map_toPGFT_char (T : Target) (hw : T.unicodeBits ≤ 32) (src : List Nat)
    (hwf : PyObject.wellFormed T (.unicode src)) :
    src.map (fun c => some (toPGFT_char c)) = src.map some := by
  apply List.map_congr_left
  intro u hu
  rw [toPGFT_char_unit T hw u (hwf u hu)]

/-- On units outside the surrogate area that are no byte-order marks the
validation loop leaves `len` as it is. -/
theorem validateLoop_all_plain (obj : PyObject) (src : List Nat) :
    ∀ (i : Nat) (len : Int),
    (∀ u ∈ src, ¬(0xD800 ≤ u ∧ u ≤ 0xDFFF) ∧ u ≠ 0xFEFF ∧ u ≠ 0xFFFE) →
    validateLoop obj src i len = .ok len := by
  induction src with
  | nil => intro i len _; simp [validateLoop]
  | cons c rest ih =>
    intro i len h
    have hc := h c (List.mem_cons_self _ _)
    rw [validateLoop_plain]
    · exact ih _ _ (fun u hu => h u (List.mem_cons_of_mem _ hu))
    · simp only [UNICODE_BOM_NATIVE, UNICODE_BOM_SWAPPED]; omega
    · simp only [UNICODE_SA_START, UNICODE_SA_END]; omega

/-- On units outside the surrogate area the merging loop stores each unit. -/
theorem mergeValues_all_plain (T : Target) (src : List Nat)
    (h : ∀ u ∈ src, ¬(0xD800 ≤ u ∧ u ≤ 0xDFFF)) :
    mergeValues T src = some (src.map toPGFT_char) := by
  induction src with
  | nil => simp [mergeValues]
  | cons c rest ih =>
    have hc := h c (List.mem_cons_self _ _)
    rw [mergeValues_plain, ih (fun u hu => h u (List.mem_cons_of_mem _ hu))]
    · rfl
    · simp only [UNICODE_HSA_START, UNICODE_HSA_END]; omega

/-- C8: with `surrogates` set, units of which none is in `[0xD800, 0xDFFF]`
and none is `0xFEFF` or `0xFFFE` give, when the allocation succeeds, a string
of as many scalars as there are units, scalar `i` being unit `i`. -/
theorem C8_plain_units_unchanged (T : Target) (src : List Nat)
    (hw : T.unicodeBits ≤ 32) (hwf : PyObject.wellFormed T (.unicode src))
    (hm : T.mallocOk (src.length + 1) = true)
    (h : ∀ u ∈ src, ¬(0xD800 ≤ u ∧ u ≤ 0xDFFF) ∧ u ≠ 0xFEFF ∧ u ≠ 0xFFFE) :
    PGFT_EncodePyString T (.unicode src) true
      = .ok ⟨src.length, src.map some ++ [some 0]⟩ := by
  have hv := validateLoop_all_plain (.unicode src) src 0 src.length h
  have hn : ((src.length : Int) + 1).toNat = src.length + 1 := by omega
  obtain ⟨vs, hvs, _, henc⟩ := encode_of_validate_ok T src src.length hv
    (by rw [SIZEOF_PGFT_STRING, hn]; exact hm)
  rw [mergeValues_all_plain T src (fun u hu => (h u hu).1)] at hvs
  cases hvs
  rw [henc]
  have := map_toPGFT_char T hw src hwf
  simp only [List.map_map] at this ⊢
  rw [← this]
  rfl

/-- C8 at `[0x41, 0x42]` on a narrow build. -/
theorem C8_plain_units_unchanged_witness :
    PGFT_EncodePyString narrowSigned (.unicode [0x41, 0x42]) true
      = .ok ⟨2, [some 0x41, some 0x42, some 0]⟩ :=
  C8_plain_units_unchanged narrowSigned [0x41, 0x42] (by decide)
    (by intro u hu; simp only [List.mem_cons, List.mem_singleton, List.not_mem_nil,
          or_false] at hu; rcases hu with rfl | rfl <;> decide)
    rfl
    (by intro u hu; simp only [List.mem_cons, List.mem_singleton, List.not_mem_nil,
          or_false] at hu; rcases hu with rfl | rfl <;> decide)

/-! ## The scalars that come back -/

/-- C9: the units `[0xD800, 0xDC00, 0xDFFF]` with `surrogates` set give a
string, on a narrow build with the scalars `0` and `0xDFFF`, on a wide build
with the scalars `0x10000` and `0xDFFF`: `0xDFFF` is a surrogate that comes
back unpaired on both, and on the narrow build the scalar of the pair is not
above `0xFFFF`. On a narrow build `[0xD836, 0xDC00]` gives the scalar
`0xD800`, a surrogate made from a pair. -/
theorem C9_surrogate_scalars_returned :
    PGFT_EncodePyString narrowSigned (.unicode [0xD800, 0xDC00, 0xDFFF]) true
        = .ok ⟨2, [some 0, some 0xDFFF, some 0]⟩
      ∧ PGFT_EncodePyString wideSigned (.unicode [0xD800, 0xDC00, 0xDFFF]) true
        = .ok ⟨2, [some 0x10000, some 0xDFFF, some 0]⟩
      ∧ PGFT_EncodePyString narrowSigned (.unicode [0xD836, 0xDC00]) true
        = .ok ⟨1, [some 0xD800, some 0]⟩ :=
  ⟨rfl, rfl, rfl⟩

/-! ## Without surrogate handling -/

/-- With `surrogates` clear and an allocation that fails, the function sets
the memory error. -/
theorem encode_raw_no_memory (T : Target) (src : List Nat)
    (hm : T.mallocOk (src.length + 1) = false) :
    PGFT_EncodePyString T (.unicode src) false = .error .noMemory := by
  have hn : ((src.length : Int) + 1).toNat = src.length + 1 := by omega
  simp [PGFT_EncodePyString, PGFT_malloc, SIZEOF_PGFT_STRING, hn, hm]

/-- C10: with `surrogates` clear nothing is validated: every unicode object
gives, when the allocation succeeds, a string of as many scalars as there are
units, scalar `i` being unit `i`; and when the allocation fails, the memory
error, never a `UnicodeEncodeError`. -/
theorem C10_raw_mode_passes_all (T : Target) (src : List Nat)
    (hw : T.unicodeBits ≤ 32) (hwf : PyObject.wellFormed T (.unicode src)) :
    (T.mallocOk (src.length + 1) = true →
      PGFT_EncodePyString T (.unicode src) false
        = .ok ⟨src.length, src.map some ++ [some 0]⟩)
    ∧ (T.mallocOk (src.length + 1) = false →
      PGFT_EncodePyString T (.unicode src) false = .error .noMemory) := by
  constructor
  · intro hm
    rw [encode_raw T src hm, map_toPGFT_char T hw src hwf]
  · exact encode_raw_no_memory T src

/-- C10 at `[0xFEFF, 0xDC00, 0xD800]`: a byte-order mark, a lone low surrogate
and a high surrogate at the end. -/
theorem C10_raw_mode_passes_all_witness :
    PGFT_EncodePyString narrowSigned (.unicode [0xFEFF, 0xDC00, 0xD800]) false
      = .ok ⟨3, [some 0xFEFF, some 0xDC00, some 0xD800, some 0]⟩ :=
  (C10_raw_mode_passes_all narrowSigned [0xFEFF, 0xDC00, 0xD800] (by decide)
    (by intro u hu; simp only [List.mem_cons, List.mem_singleton, List.not_mem_nil,
          or_false] at hu; rcases hu with rfl | rfl | rfl <;> decide)).1
    rfl

/-! ## What a returned string looks like -/

/-- With `surrogates` set, accepted units and an allocation that fails: the
memory error. -/
theorem encode_no_memory (T : Target) (src : List Nat) (l : Int)
    (h : validateLoop (.unicode src) src 0 src.length = .ok l)
    (hm : T.mallocOk (SIZEOF_PGFT_STRING l) = false) :
    PGFT_EncodePyString T (.unicode src) true = .error .noMemory := by
  simp [PGFT_EncodePyString, h, PGFT_malloc, hm]

/-- A string returned for a unicode object with `surrogates` set: the
validation loop accepted, the allocation succeeded, and the string holds the
values of the merging loop and the sentinel. -/
theorem encode_ok_inv (T : Target) (src : List Nat) (r : PGFT_String)
    (h : PGFT_EncodePyString T (.unicode src) true = .ok r) :
    ∃ (l : Int) (vs : List Nat), validateLoop (.unicode src) src 0 src.length = .ok l ∧
      T.mallocOk (SIZEOF_PGFT_STRING l) = true ∧ mergeValues T src = some vs ∧
      (vs.length : Int) = l ∧ r = ⟨l, vs.map some ++ [some 0]⟩ := by
  obtain ⟨l, hl⟩ := validate_of_encode_ok T src r h
  cases hm : T.mallocOk (SIZEOF_PGFT_STRING l) with
  | false => rw [encode_no_memory T src l hl hm] at h; cases h
  | true =>
    obtain ⟨vs, hvs, hlen, henc⟩ := encode_of_validate_ok T src l hl hm
    rw [henc] at h
    cases h
    exact ⟨l, vs, hl, hm, hvs, hlen, rfl⟩

/-- A string returned for a unicode object with `surrogates` clear. -/
theorem encode_raw_ok_inv (T : Target) (src : List Nat) (r : PGFT_String)
    (h : PGFT_EncodePyString T (.unicode src) false = .ok r) :
    r = ⟨src.length, src.map (fun c => some (toPGFT_char c)) ++ [some 0]⟩ := by
  cases hm : T.mallocOk (src.length + 1) with
  | false => rw [encode_raw_no_memory T src hm] at h; cases h
  | true => rw [encode_raw T src hm] at h; cases h; rfl

/-- A bytes object and an allocation that fails: the memory error. -/
theorem encode_bytes_no_memory (T : Target) (src : List Nat) (surrogates : Bool)
    (hm : T.mallocOk (src.length + 1) = false) :
    PGFT_EncodePyString T (.bytes src) surrogates = .error .noMemory := by
  have hn : ((src.length : Int) + 1).toNat = src.length + 1 := by omega
  simp [PGFT_EncodePyString, PGFT_malloc, SIZEOF_PGFT_STRING, hn, hm]

/-- A string returned for a bytes object. -/
theorem encode_bytes_ok_inv (T : Target) (src : List Nat) (surrogates : Bool)
    (r : PGFT_String) (h : PGFT_EncodePyString T (.bytes src) surrogates = .ok r) :
    r = ⟨src.length,
      src.map (fun b => some (charToPGFT_char (charValue T b))) ++ [some 0]⟩ := by
  cases hm : T.mallocOk (src.length + 1) with
  | false => rw [encode_bytes_no_memory T src surrogates hm] at h; cases h
  | true => rw [encode_bytes T src surrogates hm] at h; cases h; rfl

/-- Every returned string is a list of written scalars followed by the
sentinel, and its length field is the number of those scalars. -/
theorem encode_ok_shape (T : Target) (obj : PyObject) (surrogates : Bool) (r : PGFT_String)
    (h : PGFT_EncodePyString T obj surrogates = .ok r) :
    ∃ vs : List Nat, r.data = vs.map some ++ [some 0] ∧ r.length = (vs.length : Int) := by
  cases obj with
  | unicode src =>
    cases surrogates with
    | true =>
      obtain ⟨l, vs, _, _, _, hlen, hr⟩ := encode_ok_inv T src r h
      exact ⟨vs, by rw [hr], by rw [hr]; exact hlen.symm⟩
    | false =>
      have hr := encode_raw_ok_inv T src r h
      refine ⟨src.map toPGFT_char, ?_, ?_⟩
      · rw [hr]; simp [List.map_map, Function.comp_def]
      · rw [hr]; simp
  | bytes src =>
    have hr := encode_bytes_ok_inv T src surrogates r h
    refine ⟨src.map (fun b => charToPGFT_char (charValue T b)), ?_, ?_⟩
    · rw [hr]; simp [List.map_map, Function.comp_def]
    · rw [hr]; simp
  | other tp => simp [PGFT_EncodePyString] at h

/-- C11: every returned string, whatever the object and the flag, has
`length + 1` slots, of which slot `length` holds `0` and the `length` slots
before it hold the scalars, all written; and an empty unicode or bytes object
gives, when the allocation succeeds, length `0` and the sentinel alone. -/
theorem C11_length_plus_sentinel (T : Target) :
    (∀ (obj : PyObject) (surrogates : Bool) (r : PGFT_String),
      PGFT_EncodePyString T obj surrogates = .ok r →
      0 ≤ r.length ∧ (r.data.length : Int) = r.length + 1
        ∧ r.data[r.length.toNat]? = some (some 0)
        ∧ ∃ vs : List Nat, r.scalars = vs.map some ∧ (vs.length : Int) = r.length)
    ∧ (T.mallocOk 1 = true → ∀ surrogates : Bool,
      PGFT_EncodePyString T (.unicode []) surrogates = .ok ⟨0, [some 0]⟩
        ∧ PGFT_EncodePyString T (.bytes []) surrogates = .ok ⟨0, [some 0]⟩) := by
  constructor
  · intro obj surrogates r h
    obtain ⟨vs, hd, hl⟩ := encode_ok_shape T obj surrogates r h
    have hn : r.length.toNat = vs.length := by omega
    refine ⟨by omega, ?_, ?_, vs, ?_, hl.symm⟩
    · rw [hd, hl]; simp
    · rw [hd, hn]; simp
    · rw [PGFT_String.scalars, hd, hn]; simp
  · intro hm surrogates
    constructor
    · cases surrogates with
      | true =>
        obtain ⟨vs, hvs, hlen, henc⟩ := encode_of_validate_ok T [] 0 (by simp [validateLoop]) hm
        simp only [mergeValues, Option.some.injEq] at hvs
        rw [henc, ← hvs]
        rfl
      | false => exact encode_raw T [] hm
    · exact encode_bytes T [] surrogates hm

/-- C11 at the units `[0xD800, 0xDC00, 0x41]` of a wide build, and at the
empty objects. -/
theorem C11_length_plus_sentinel_witness :
    (0 ≤ (2 : Int) ∧ (([some 0x10000, some 0x41, some 0] : List (Option Nat)).length : Int)
        = 2 + 1
      ∧ ([some 0x10000, some 0x41, some 0] : List (Option Nat))[(2 : Int).toNat]?
        = some (some 0)
      ∧ ∃ vs : List Nat,
          (⟨2, [some 0x10000, some 0x41, some 0]⟩ : PGFT_String).scalars = vs.map some
            ∧ (vs.length : Int) = 2)
    ∧ PGFT_EncodePyString wideSigned (.unicode []) true = .ok ⟨0, [some 0]⟩
    ∧ PGFT_EncodePyString wideSigned (.bytes []) true = .ok ⟨0, [some 0]⟩ :=
  ⟨(C11_length_plus_sentinel wideSigned).1 (.unicode [0xD800, 0xDC00, 0x41]) true
      ⟨2, [some 0x10000, some 0x41, some 0]⟩ rfl,
   ((C11_length_plus_sentinel wideSigned).2 rfl true).1,
   ((C11_length_plus_sentinel wideSigned).2 rfl true).2⟩

/-! ## The length against the number of units -/

/-- C12: the length of a returned string is not negative and is at most the
number of units of the object, whatever the flag. -/
theorem C12_length_at_most_units (T : Target) (obj : PyObject) (surrogates : Bool)
    (r : PGFT_String) (h : PGFT_EncodePyString T obj surrogates = .ok r) :
    0 ≤ r.length ∧ r.length ≤ (obj.unitCount : Int) := by
  cases obj with
  | unicode src =>
    cases surrogates with
    | true =>
      obtain ⟨l, vs, hv, _, _, hlen, hr⟩ := encode_ok_inv T src r h
      have := validateLoop_len _ src _ _ _ hv
      rw [hr]
      simp only [PyObject.unitCount]
      omega
    | false =>
      rw [encode_raw_ok_inv T src r h]
      simp [PyObject.unitCount]
  | bytes src =>
    rw [encode_bytes_ok_inv T src surrogates r h]
    simp [PyObject.unitCount]
  | other tp => simp [PGFT_EncodePyString] at h

/-- C12 at `[0xD800, 0xDC00, 0x41]`: three units, length two. -/
theorem C12_length_at_most_units_witness :
    PGFT_EncodePyString narrowSigned (.unicode [0xD800, 0xDC00, 0x41]) true
      = .ok ⟨2, [some 0, some 0x41, some 0]⟩
    ∧ 0 ≤ (⟨2, [some 0, some 0x41, some 0]⟩ : PGFT_String).length
    ∧ (⟨2, [some 0, some 0x41, some 0]⟩ : PGFT_String).length
      ≤ ((PyObject.unicode [0xD800, 0xDC00, 0x41]).unitCount : Int) :=
  ⟨rfl, C12_length_at_most_units narrowSigned (.unicode [0xD800, 0xDC00, 0x41]) true
    ⟨2, [some 0, some 0x41, some 0]⟩ rfl⟩

/-! ## The range of an error -/

/-- An exception of the validation loop names the object, the codec "utf-32"
and the range of one unit the loop has reached. -/
theorem validateLoop_error_range (obj : PyObject) : ∀ (src : List Nat) (i : Nat) (len : Int)
    (e : Failure), validateLoop obj src i len = .error e →
    ∃ (s : Nat) (reason : String), e = .unicodeEncodeError "utf-32" obj s (s + 1) reason
      ∧ i ≤ s ∧ s + 1 ≤ i + src.length
  | [], i, len, e, h => by simp [validateLoop] at h
  | [c], i, len, e, h => by
    by_cases hb : c = UNICODE_BOM_NATIVE ∨ c = UNICODE_BOM_SWAPPED
    · rw [validateLoop_bom _ _ _ _ _ hb] at h
      cases h
      exact ⟨i, _, rfl, le_refl _, by simp⟩
    · by_cases hs : UNICODE_SA_START ≤ c ∧ c < UNICODE_SA_END
      · by_cases hh : c > UNICODE_HSA_END
        · rw [validateLoop_above _ _ _ _ _ hb hs hh] at h
          cases h
          exact ⟨i, _, rfl, le_refl _, by simp⟩
        · rw [validateLoop_lead_last _ _ _ _ hb hs hh] at h
          cases h
          exact ⟨i, _, rfl, le_refl _, by simp⟩
      · rw [validateLoop_plain _ _ _ _ _ hb hs] at h
        simp [validateLoop] at h
  | c :: c2 :: rest2, i, len, e, h => by
    by_cases hb : c = UNICODE_BOM_NATIVE ∨ c = UNICODE_BOM_SWAPPED
    · rw [validateLoop_bom _ _ _ _ _ hb] at h
      cases h
      exact ⟨i, _, rfl, le_refl _, by simp⟩
    · by_cases hs : UNICODE_SA_START ≤ c ∧ c < UNICODE_SA_END
      · by_cases hh : c > UNICODE_HSA_END
        · rw [validateLoop_above _ _ _ _ _ hb hs hh] at h
          cases h
          exact ⟨i, _, rfl, le_refl _, by simp⟩
        · by_cases hl : c2 < UNICODE_LSA_START ∨ c2 > UNICODE_LSA_END
          · rw [validateLoop_lead_bad _ _ _ _ _ _ hb hs hh hl] at h
            cases h
            exact ⟨i + 1, _, rfl, by omega, by simp only [List.length_cons]; omega⟩
          · rw [validateLoop_pair _ _ _ _ _ _ hb hs hh hl] at h
            obtain ⟨s, reason, he, h1, h2⟩ := validateLoop_error_range obj rest2 _ _ _ h
            exact ⟨s, reason, he, by omega, by simp only [List.length_cons]; omega⟩
      · rw [validateLoop_plain _ _ _ _ _ hb hs] at h
        obtain ⟨s, reason, he, h1, h2⟩ := validateLoop_error_range obj (c2 :: rest2) _ _ _ h
        exact ⟨s, reason, he, by omega, by simp only [List.length_cons] at h2 ⊢; omega⟩

/-- C13: with `surrogates` set, a `UnicodeEncodeError` for a unicode object
has a range `[start, end)` with `0 ≤ start`, `end = start + 1` and `end` at
most the number of units; it names the codec "utf-32" and the object. -/
theorem C13_error_range_is_one_unit (T : Target) (src : List Nat) (codec : String)
    (object : PyObject) (start end_ : Nat) (reason : String)
    (h : PGFT_EncodePyString T (.unicode src) true
      = .error (.unicodeEncodeError codec object start end_ reason)) :
    0 ≤ start ∧ end_ = start + 1 ∧ end_ ≤ src.length ∧ codec = "utf-32"
      ∧ object = .unicode src := by
  cases hv : validateLoop (.unicode src) src 0 src.length with
  | error e =>
    rw [encode_of_validate_error T src e hv] at h
    obtain ⟨s, reason1, he, _, h2⟩ := validateLoop_error_range _ src _ _ _ hv
    rw [he] at h
    cases h
    exact ⟨Nat.zero_le _, rfl, by omega, rfl, rfl⟩
  | ok l =>
    cases hm : T.mallocOk (SIZEOF_PGFT_STRING l) with
    | false => rw [encode_no_memory T src l hv hm] at h; cases h
    | true =>
      obtain ⟨vs, _, _, henc⟩ := encode_of_validate_ok T src l hv hm
      rw [henc] at h
      cases h

/-- C13 at `[0x41, 0xD800, 0x42]`: the follower at index 2 is refused. -/
theorem C13_error_range_is_one_unit_witness :
    PGFT_EncodePyString narrowSigned (.unicode [0x41, 0xD800, 0x42]) true
      = .error (.unicodeEncodeError "utf-32" (.unicode [0x41, 0xD800, 0x42]) 2 3
          "expected low-surrogate code point")
    ∧ 0 ≤ 2 ∧ 3 = 2 + 1 ∧ 3 ≤ ([0x41, 0xD800, 0x42] : List Nat).length ∧ "utf-32" = "utf-32"
      ∧ PyObject.unicode [0x41, 0xD800, 0x42] = .unicode [0x41, 0xD800, 0x42] :=
  ⟨rfl, C13_error_range_is_one_unit narrowSigned [0x41, 0xD800, 0x42] "utf-32"
    (.unicode [0x41, 0xD800, 0x42]) 2 3 "expected low-surrogate code point" rfl⟩

/-! ## The merging loop, iteration by iteration -/

/-- The traced loop is the merging loop, and its record is `mergeSteps`. -/
theorem mergeLoopTraced_eq (T : Target) : ∀ (src : List Nat) (i j : Nat)
    (dst : List (Option Nat)) (tr : List (Nat × Nat)),
    mergeLoopTraced T src i j dst tr
      = (mergeLoop T src j dst).map (fun x => (x.1, x.2, tr ++ mergeSteps src i j))
  | [], i, j, dst, tr => by simp [mergeLoopTraced, mergeLoop, mergeSteps, Except.map]
  | [c], i, j, dst, tr => by
    by_cases hc : UNICODE_HSA_START ≤ c ∧ c ≤ UNICODE_HSA_END
    · simp [mergeLoopTraced, mergeLoop, hc, Except.map]
    · simp only [mergeLoopTraced, mergeLoop, mergeSteps, hc, if_false]
      cases store dst j (toPGFT_char c) with
      | error e => simp [Except.map]
      | ok dst1 => simp [Except.map]
  | c :: lo :: rest2, i, j, dst, tr => by
    by_cases hc : UNICODE_HSA_START ≤ c ∧ c ≤ UNICODE_HSA_END
    · simp only [mergeLoopTraced, mergeLoop, mergeSteps, hc, and_self, if_true]
      cases store dst j (toPGFT_char (((((c &&& 0x3FF) <<< 10) ||| (lo &&& 0x3FF)) + 0x10000)
          % 2 ^ T.unicodeBits)) with
      | error e => simp [Except.map]
      | ok dst1 =>
        simp only []
        rw [mergeLoopTraced_eq T rest2 (i + 1 + 1) (j + 1) dst1 (tr ++ [(i, j)])]
        simp [List.append_assoc]
    · simp only [mergeLoopTraced, mergeLoop, mergeSteps, hc, if_false]
      cases store dst j (toPGFT_char c) with
      | error e => simp [Except.map]
      | ok dst1 =>
        simp only []
        rw [mergeLoopTraced_eq T (lo :: rest2) (i + 1) (j + 1) dst1 (tr ++ [(i, j)])]
        simp [List.append_assoc]

/-- The write indices of the iterations are consecutive from the first. -/
theorem mergeSteps_write_indices : ∀ (src : List Nat) (i j : Nat),
    (mergeSteps src i j).map Prod.snd = List.range' j (mergeSteps src i j).length
  | [], i, j => by simp [mergeSteps]
  | [c], i, j => by
    by_cases hc : UNICODE_HSA_START ≤ c ∧ c ≤ UNICODE_HSA_END
    · simp [mergeSteps, hc, List.range']
    · simp [mergeSteps, hc, List.range']
  | c :: lo :: rest2, i, j => by
    by_cases hc : UNICODE_HSA_START ≤ c ∧ c ≤ UNICODE_HSA_END
    · simp only [mergeSteps, hc, and_self, if_true, List.map_cons, List.length_cons,
        List.range'_succ, mergeSteps_write_indices rest2 (i + 1 + 1) (j + 1)]
    · simp only [mergeSteps, hc, if_false, List.map_cons, List.length_cons,
        List.range'_succ, mergeSteps_write_indices (lo :: rest2) (i + 1) (j + 1)]

/-- There are as many iterations as stored values. -/
theorem mergeSteps_length (T : Target) : ∀ (src : List Nat) (vs : List Nat) (i j : Nat),
    mergeValues T src = some vs → (mergeSteps src i j).length = vs.length
  | [], vs, i, j, h => by
    simp [mergeValues] at h
    subst h
    simp [mergeSteps]
  | [c], vs, i, j, h => by
    by_cases hc : UNICODE_HSA_START ≤ c ∧ c ≤ UNICODE_HSA_END
    · simp [mergeValues, hc] at h
    · simp [mergeValues, hc] at h
      subst h
      simp [mergeSteps, hc]
  | c :: lo :: rest2, vs, i, j, h => by
    by_cases hc : UNICODE_HSA_START ≤ c ∧ c ≤ UNICODE_HSA_END
    · rw [mergeValues_pair T c lo rest2 hc] at h
      simp only [Option.map_eq_some'] at h
      obtain ⟨ws, hws, rfl⟩ := h
      simp only [mergeSteps, hc, and_self, if_true, List.length_cons,
        mergeSteps_length T rest2 ws _ _ hws]
    · rw [mergeValues_plain T c _ hc] at h
      simp only [Option.map_eq_some'] at h
      obtain ⟨ws, hws, rfl⟩ := h
      simp only [mergeSteps, hc, if_false, List.length_cons,
        mergeSteps_length T (lo :: rest2) ws _ _ hws]

/-- On accepted units every iteration reads inside the units, and where it
reads a leading unit the unit after it is there and is a low surrogate. -/
theorem mergeSteps_reads (obj : PyObject) : ∀ (src : List Nat) (i0 : Nat) (len l : Int)
    (i j : Nat), validateLoop obj src i0 len = .ok l → ∀ p ∈ mergeSteps src i j,
    ∃ (k c : Nat), p.1 = i + k ∧ src[k]? = some c ∧
      (UNICODE_HSA_START ≤ c ∧ c ≤ UNICODE_HSA_END →
        ∃ lo, src[k + 1]? = some lo ∧ UNICODE_LSA_START ≤ lo ∧ lo ≤ UNICODE_LSA_END)
  | [], i0, len, l, i, j, _ => by simp [mergeSteps]
  | [c], i0, len, l, i, j, h => by
    by_cases hb : c = UNICODE_BOM_NATIVE ∨ c = UNICODE_BOM_SWAPPED
    · simp [validateLoop_bom _ _ _ _ _ hb] at h
    · by_cases hs : UNICODE_SA_START ≤ c ∧ c < UNICODE_SA_END
      · by_cases hh : c > UNICODE_HSA_END
        · simp [validateLoop_above _ _ _ _ _ hb hs hh] at h
        · simp [validateLoop_lead_last _ _ _ _ hb hs hh] at h
      · have hc := not_lead_of_plain c hs
        intro p hp
        simp only [mergeSteps, hc, if_false, List.mem_singleton] at hp
        subst hp
        exact ⟨0, c, rfl, rfl, fun hlead => absurd hlead hc⟩
  | c :: c2 :: rest2, i0, len, l, i, j, h => by
    by_cases hb : c = UNICODE_BOM_NATIVE ∨ c = UNICODE_BOM_SWAPPED
    · simp [validateLoop_bom _ _ _ _ _ hb] at h
    · by_cases hs : UNICODE_SA_START ≤ c ∧ c < UNICODE_SA_END
      · by_cases hh : c > UNICODE_HSA_END
        · simp [validateLoop_above _ _ _ _ _ hb hs hh] at h
        · by_cases hl : c2 < UNICODE_LSA_START ∨ c2 > UNICODE_LSA_END
          · simp [validateLoop_lead_bad _ _ _ _ _ _ hb hs hh hl] at h
          · rw [validateLoop_pair _ _ _ _ _ _ hb hs hh hl] at h
            have hc := lead_of_pair c hs hh
            intro p hp
            simp only [mergeSteps, hc, and_self, if_true, List.mem_cons] at hp
            rcases hp with rfl | hp
            · exact ⟨0, c, rfl, rfl, fun _ => ⟨c2, by simp, by omega, by omega⟩⟩
            · obtain ⟨k, c', hk, hget, hnext⟩ :=
                mergeSteps_reads obj rest2 _ _ _ (i + 1 + 1) (j + 1) h p hp
              exact ⟨k + 2, c', by omega, by simpa using hget, by simpa using hnext⟩
      · rw [validateLoop_plain _ _ _ _ _ hb hs] at h
        have hc := not_lead_of_plain c hs
        intro p hp
        simp only [mergeSteps, hc, if_false, List.mem_cons] at hp
        rcases hp with rfl | hp
        · exact ⟨0, c, rfl, rfl, fun hlead => absurd hlead hc⟩
        · obtain ⟨k, c', hk, hget, hnext⟩ :=
            mergeSteps_reads obj (c2 :: rest2) _ _ _ (i + 1) (j + 1) h p hp
          exact ⟨k + 1, c', by omega, by simpa using hget, by simpa using hnext⟩

/-- After the validation loop has accepted, the traced loop on a buffer of at
least `len` slots: it returns, with `len` as the final write index, the stored
values in the first `len` slots and the other slots as they were. -/
theorem mergeLoopTraced_of_validate (T : Target) (src : List Nat) (l : Int)
    (dst : List (Option Nat))
    (hv : validateLoop (.unicode src) src 0 src.length = .ok l) (hd : l.toNat ≤ dst.length) :
    ∃ vs : List Nat, mergeValues T src = some vs ∧ (vs.length : Int) = l ∧
      mergeLoop T src 0 dst = .ok (vs.length, vs.map some ++ dst.drop vs.length) ∧
      mergeLoopTraced T src 0 0 dst []
        = .ok (vs.length, vs.map some ++ dst.drop vs.length, mergeSteps src 0 0) := by
  obtain ⟨vs, hvs, hlen⟩ := mergeValues_of_validate T _ src 0 src.length l hv
  have hl : (vs.length : Int) = l := by omega
  have hm := mergeLoop_eq T src vs 0 dst hvs (by omega)
  simp only [Nat.zero_add, List.take_zero, List.nil_append] at hm
  refine ⟨vs, hvs, hl, hm, ?_⟩
  rw [mergeLoopTraced_eq, hm]
  simp [Except.map]

/-- C14: after the validation loop has accepted with `len = l`, the merging
loop on a buffer of at least `l` slots returns; each of its iterations stores
at a write index below `l` and leaves the slots from `l` on as they were, reads
inside the units, and where it reads a unit in `[0xD800, 0xD8FF]` the unit
after it is there and is in `[0xDC00, 0xDFFF]`. -/
theorem C14_merge_cannot_fail (T : Target) (src : List Nat) (l : Int)
    (dst : List (Option Nat))
    (hv : validateLoop (.unicode src) src 0 src.length = .ok l) (hd : l.toNat ≤ dst.length) :
    ∃ (j : Nat) (dst1 : List (Option Nat)) (tr : List (Nat × Nat)),
      mergeLoopTraced T src 0 0 dst [] = .ok (j, dst1, tr)
      ∧ mergeLoop T src 0 dst = .ok (j, dst1)
      ∧ dst1.drop l.toNat = dst.drop l.toNat
      ∧ ∀ p ∈ tr, (p.2 : Int) < l ∧ ∃ c, src[p.1]? = some c ∧
          (0xD800 ≤ c ∧ c ≤ 0xD8FF →
            ∃ lo, src[p.1 + 1]? = some lo ∧ 0xDC00 ≤ lo ∧ lo ≤ 0xDFFF) := by
  obtain ⟨vs, hvs, hlen, hmerge, htraced⟩ := mergeLoopTraced_of_validate T src l dst hv hd
  have hn : l.toNat = vs.length := by omega
  refine ⟨vs.length, _, _, htraced, hmerge, ?_, ?_⟩
  · rw [hn, List.drop_append_eq_append_drop]
    simp
  · intro p hp
    constructor
    · have hmem : p.2 ∈ (mergeSteps src 0 0).map Prod.snd := List.mem_map_of_mem _ hp
      rw [mergeSteps_write_indices, mergeSteps_length T src vs 0 0 hvs] at hmem
      have := (List.mem_range'_1.1 hmem).2
      omega
    · obtain ⟨k, c, hk, hget, hnext⟩ := mergeSteps_reads _ src 0 _ l 0 0 hv p hp
      have hk' : p.1 = k := by omega
      rw [hk']
      refine ⟨c, hget, fun hc => ?_⟩
      exact hnext (by simpa only [UNICODE_HSA_START, UNICODE_HSA_END] using hc)

/-- C14 at `[0x41, 0xD8FF, 0xDFFF]` with a buffer of exactly two slots. -/
theorem C14_merge_cannot_fail_witness :
    ∃ (j : Nat) (dst1 : List (Option Nat)) (tr : List (Nat × Nat)),
      mergeLoopTraced narrowSigned [0x41, 0xD8FF, 0xDFFF] 0 0 [none, none] []
        = .ok (j, dst1, tr)
      ∧ mergeLoop narrowSigned [0x41, 0xD8FF, 0xDFFF] 0 [none, none] = .ok (j, dst1)
      ∧ dst1.drop (2 : Int).toNat = ([none, none] : List (Option Nat)).drop (2 : Int).toNat
      ∧ ∀ p ∈ tr, (p.2 : Int) < 2 ∧ ∃ c, ([0x41, 0xD8FF, 0xDFFF] : List Nat)[p.1]? = some c ∧
          (0xD800 ≤ c ∧ c ≤ 0xD8FF →
            ∃ lo, ([0x41, 0xD8FF, 0xDFFF] : List Nat)[p.1 + 1]? = some lo
              ∧ 0xDC00 ≤ lo ∧ lo ≤ 0xDFFF) :=
  C14_merge_cannot_fail narrowSigned [0x41, 0xD8FF, 0xDFFF] 2 [none, none] rfl (by decide)

/-- C16: after the validation loop has accepted with `len = l`, the merging
loop ends with its write index at `l`; the write indices of its iterations are
`0, 1, ..., l - 1` in this order, each once, so that the first `l` slots all
hold a stored value; and the test by which the validation loop takes a unit as
the first of a pair picks the same units as the test of the merging loop. -/
theorem C16_write_count_is_length (T : Target) (src : List Nat) (l : Int)
    (dst : List (Option Nat))
    (hv : validateLoop (.unicode src) src 0 src.length = .ok l) (hd : l.toNat ≤ dst.length) :
    ∃ (j : Nat) (dst1 : List (Option Nat)) (tr : List (Nat × Nat)),
      mergeLoopTraced T src 0 0 dst [] = .ok (j, dst1, tr)
      ∧ (j : Int) = l
      ∧ tr.map Prod.snd = List.range l.toNat
      ∧ (∃ vs : List Nat, dst1.take l.toNat = vs.map some)
      ∧ ∀ c : Nat, ((UNICODE_SA_START ≤ c ∧ c < UNICODE_SA_END) ∧ ¬ c > UNICODE_HSA_END)
          ↔ (UNICODE_HSA_START ≤ c ∧ c ≤ UNICODE_HSA_END) := by
  obtain ⟨vs, hvs, hlen, hmerge, htraced⟩ := mergeLoopTraced_of_validate T src l dst hv hd
  have hn : l.toNat = vs.length := by omega
  refine ⟨vs.length, _, _, htraced, hlen, ?_, ⟨vs, ?_⟩, ?_⟩
  · rw [mergeSteps_write_indices, mergeSteps_length T src vs 0 0 hvs, hn,
      List.range_eq_range']
  · rw [hn, List.take_append_eq_append_take]
    simp
  · intro c
    simp only [UNICODE_SA_START, UNICODE_SA_END, UNICODE_HSA_START, UNICODE_HSA_END]
    omega

/-- C16 at `[0xD800, 0xDC00, 0x41, 0xD801, 0xDC01]`: five units, length three. -/
theorem C16_write_count_is_length_witness :
    ∃ (j : Nat) (dst1 : List (Option Nat)) (tr : List (Nat × Nat)),
      mergeLoopTraced wideSigned [0xD800, 0xDC00, 0x41, 0xD801, 0xDC01] 0 0
          [none, none, none, none] [] = .ok (j, dst1, tr)
      ∧ (j : Int) = 3
      ∧ tr.map Prod.snd = List.range (3 : Int).toNat
      ∧ (∃ vs : List Nat, dst1.take (3 : Int).toNat = vs.map some)
      ∧ ∀ c : Nat, ((UNICODE_SA_START ≤ c ∧ c < UNICODE_SA_END) ∧ ¬ c > UNICODE_HSA_END)
          ↔ (UNICODE_HSA_START ≤ c ∧ c ≤ UNICODE_HSA_END) :=
  C16_write_count_is_length wideSigned [0xD800, 0xDC00, 0x41, 0xD801, 0xDC01] 3
    [none, none, none, none] rfl (by decide)

/-! ## The merging loop against the reference decoding -/

/-- The merged value in arithmetic: ten bits of each unit, and `0x10000`. -/
theorem merged_arith (h lo : Nat) :
    (((h &&& 0x3FF) <<< 10) ||| (lo &&& 0x3FF)) + 0x10000
      = (h % 1024) * 1024 + lo % 1024 + 65536 := by
  have e1 : h &&& 0x3FF = h % 1024 := Nat.and_pow_two_sub_one_eq_mod h 10
  have e2 : lo &&& 0x3FF = lo % 1024 := Nat.and_pow_two_sub_one_eq_mod lo 10
  have e3 := Nat.mul_add_lt_is_or (show lo % 1024 < 2 ^ 10 from Nat.mod_lt _ (by decide))
    (h % 1024)
  rw [e1, e2, Nat.shiftLeft_eq, Nat.mul_comm (h % 1024) (2 ^ 10), ← e3]

/-- A `Py_UNICODE` of 21 bits or more holds the merged value. -/
theorem merged_fits (T : Target) (hlo : 21 ≤ T.unicodeBits) (h lo : Nat) :
    toPGFT_char (((((h &&& 0x3FF) <<< 10) ||| (lo &&& 0x3FF)) + 0x10000) % 2 ^ T.unicodeBits)
      = (((h &&& 0x3FF) <<< 10) ||| (lo &&& 0x3FF)) + 0x10000 := by
  have hval := merged_arith h lo
  have hb : (((h &&& 0x3FF) <<< 10) ||| (lo &&& 0x3FF)) + 0x10000 < 2 ^ 21 := by
    rw [hval]
    have := Nat.mod_lt h (show 1024 > 0 by decide)
    have := Nat.mod_lt lo (show 1024 > 0 by decide)
    norm_num
    omega
  have hw : 2 ^ 21 ≤ 2 ^ T.unicodeBits := Nat.pow_le_pow_right (by decide) hlo
  rw [Nat.mod_eq_of_lt (lt_of_lt_of_le hb hw), toPGFT_char]
  exact Nat.mod_eq_of_lt (lt_trans hb (by norm_num))

theorem referenceDecode_plain (h : Nat) (rest : List Nat) (hc : ¬(0xD800 ≤ h ∧ h ≤ 0xD8FF)) :
    referenceDecode (h :: rest) = (referenceDecode rest).map (h :: ·) := by
  cases rest <;> simp only [referenceDecode, hc, if_false]

theorem referenceDecode_pair (h l : Nat) (rest2 : List Nat) (hc : 0xD800 ≤ h ∧ h ≤ 0xD8FF) :
    referenceDecode (h :: l :: rest2) = (referenceDecode rest2).map
      (((((h &&& 0x3FF) <<< 10) ||| (l &&& 0x3FF)) + 0x10000) :: ·) := by
  simp only [referenceDecode, hc, and_self, if_true]

/-- With a `Py_UNICODE` of 21 to 32 bits the merging loop stores the reference
decoding. -/
theorem mergeValues_eq_reference (T : Target) (hlo : 21 ≤ T.unicodeBits)
    (hhi : T.unicodeBits ≤ 32) : ∀ (src : List Nat), (∀ u ∈ src, u < 2 ^ T.unicodeBits) →
    mergeValues T src = referenceDecode src
  | [], _ => by simp [mergeValues, referenceDecode]
  | [c], hwf => by
    by_cases hc : UNICODE_HSA_START ≤ c ∧ c ≤ UNICODE_HSA_END
    · have hc' : 0xD800 ≤ c ∧ c ≤ 0xD8FF := hc
      simp [mergeValues, referenceDecode, hc, hc']
    · have hc' : ¬(0xD800 ≤ c ∧ c ≤ 0xD8FF) := hc
      rw [mergeValues_plain T c [] hc, referenceDecode_plain c [] hc',
        toPGFT_char_unit T hhi c (hwf c (by simp))]
      simp [mergeValues, referenceDecode]
  | c :: lo :: rest2, hwf => by
    by_cases hc : UNICODE_HSA_START ≤ c ∧ c ≤ UNICODE_HSA_END
    · have hc' : 0xD800 ≤ c ∧ c ≤ 0xD8FF := hc
      rw [mergeValues_pair T c lo rest2 hc, referenceDecode_pair c lo rest2 hc',
        merged_fits T hlo c lo,
        mergeValues_eq_reference T hlo hhi rest2 (fun u hu => hwf u (by simp [hu]))]
    · have hc' : ¬(0xD800 ≤ c ∧ c ≤ 0xD8FF) := hc
      rw [mergeValues_plain T c _ hc, referenceDecode_plain c _ hc',
        toPGFT_char_unit T hhi c (hwf c (by simp)),
        mergeValues_eq_reference T hlo hhi (lo :: rest2)
          (fun u hu => hwf u (List.mem_cons_of_mem _ hu))]

/-- With a `Py_UNICODE` of 21 to 32 bits, the scalars of a returned string are
the reference decoding of the units. -/
theorem encode_is_reference_of_wide (T : Target) (hlo : 21 ≤ T.unicodeBits)
    (hhi : T.unicodeBits ≤ 32) (src : List Nat) (r : PGFT_String)
    (hwf : PyObject.wellFormed T (.unicode src))
    (h : PGFT_EncodePyString T (.unicode src) true = .ok r) :
    ∃ vs, referenceDecode src = some vs ∧ r.scalars = vs.map some := by
  obtain ⟨l, vs, _, _, hvs, hlen, hr⟩ := encode_ok_inv T src r h
  rw [mergeValues_eq_reference T hlo hhi src hwf] at hvs
  refine ⟨vs, hvs, ?_⟩
  have hn : l.toNat = vs.length := by omega
  rw [hr, PGFT_String.scalars]
  simp only [hn, List.take_append_eq_append_take, List.length_map, Nat.sub_self, List.take_zero,
    List.append_nil]
  simp

/-- C15: on a narrow build (16-bit `Py_UNICODE`) the units
`[0x41, 0xD800, 0xDC00]` with `surrogates` set give the scalars `0x41` and `0`,
while their reference decoding is `0x41` and `0x10000`: the scalar of the pair
is the merged value cut to 16 bits. On a wide build the scalars are the
reference decoding. -/
theorem C15_scalars_differ_from_reference :
    PGFT_EncodePyString narrowSigned (.unicode [0x41, 0xD800, 0xDC00]) true
        = .ok ⟨2, [some 0x41, some 0, some 0]⟩
      ∧ referenceDecode [0x41, 0xD800, 0xDC00] = some [0x41, 0x10000]
      ∧ PGFT_EncodePyString wideSigned (.unicode [0x41, 0xD800, 0xDC00]) true
        = .ok ⟨2, [some 0x41, some 0x10000, some 0]⟩ :=
  ⟨rfl, rfl, rfl⟩

/-! ## Concatenation -/

/-- The scalars of a string made of values and the sentinel. -/
theorem scalars_mk (l : Int) (vs : List Nat) (h : (vs.length : Int) = l) :
    (⟨l, vs.map some ++ [some 0]⟩ : PGFT_String).scalars = vs.map some := by
  have hn : l.toNat = vs.length := by omega
  simp [PGFT_String.scalars, hn, List.take_append_eq_append_take]

/-- After an accepted prefix the merging loop stores the values of the prefix
and then those of the rest. -/
theorem mergeValues_append (T : Target) (obj : PyObject) : ∀ (a b : List Nat) (i : Nat)
    (len l : Int) (va : List Nat), validateLoop obj a i len = .ok l →
    mergeValues T a = some va →
    mergeValues T (a ++ b) = (mergeValues T b).map (va ++ ·)
  | [], b, i, len, l, va, _, hva => by
    simp [mergeValues] at hva
    subst hva
    simp
  | [c], b, i, len, l, va, h, hva => by
    by_cases hb : c = UNICODE_BOM_NATIVE ∨ c = UNICODE_BOM_SWAPPED
    · simp [validateLoop_bom _ _ _ _ _ hb] at h
    · by_cases hs : UNICODE_SA_START ≤ c ∧ c < UNICODE_SA_END
      · by_cases hh : c > UNICODE_HSA_END
        · simp [validateLoop_above _ _ _ _ _ hb hs hh] at h
        · simp [validateLoop_lead_last _ _ _ _ hb hs hh] at h
      · have hc := not_lead_of_plain c hs
        rw [mergeValues_plain T c [] hc] at hva
        simp [mergeValues] at hva
        subst hva
        rw [List.singleton_append, mergeValues_plain T c b hc]
        rfl
  | c :: c2 :: rest2, b, i, len, l, va, h, hva => by
    by_cases hb : c = UNICODE_BOM_NATIVE ∨ c = UNICODE_BOM_SWAPPED
    · simp [validateLoop_bom _ _ _ _ _ hb] at h
    · by_cases hs : UNICODE_SA_START ≤ c ∧ c < UNICODE_SA_END
      · by_cases hh : c > UNICODE_HSA_END
        · simp [validateLoop_above _ _ _ _ _ hb hs hh] at h
        · by_cases hl : c2 < UNICODE_LSA_START ∨ c2 > UNICODE_LSA_END
          · simp [validateLoop_lead_bad _ _ _ _ _ _ hb hs hh hl] at h
          · rw [validateLoop_pair _ _ _ _ _ _ hb hs hh hl] at h
            have hc := lead_of_pair c hs hh
            rw [mergeValues_pair T c c2 rest2 hc] at hva
            simp only [Option.map_eq_some'] at hva
            obtain ⟨ws, hws, rfl⟩ := hva
            have ih := mergeValues_append T obj rest2 b _ _ _ ws h hws
            have e : (c :: c2 :: rest2) ++ b = c :: c2 :: (rest2 ++ b) := rfl
            rw [e, mergeValues_pair T c c2 _ hc, ih, Option.map_map]
            rfl
      · rw [validateLoop_plain _ _ _ _ _ hb hs] at h
        have hc := not_lead_of_plain c hs
        rw [mergeValues_plain T c _ hc] at hva
        simp only [Option.map_eq_some'] at hva
        obtain ⟨ws, hws, rfl⟩ := hva
        have ih := mergeValues_append T obj (c2 :: rest2) b _ _ _ ws h hws
        have e : (c :: c2 :: rest2) ++ b = c :: ((c2 :: rest2) ++ b) := rfl
        rw [e, mergeValues_plain T c _ hc, ih, Option.map_map]
        rfl

/-- C17: with `surrogates` set, when the units `a` and the units `b` each give
a string and the allocation for the sum of the two lengths succeeds, the units
`a ++ b` give a string; its scalars are those of `a` followed by those of `b`,
and its length is the sum of the two lengths. -/
theorem C17_concatenation (T : Target) (a b : List Nat) (ra rb : PGFT_String)
    (ha : PGFT_EncodePyString T (.unicode a) true = .ok ra)
    (hb : PGFT_EncodePyString T (.unicode b) true = .ok rb)
    (hm : T.mallocOk (SIZEOF_PGFT_STRING (ra.length + rb.length)) = true) :
    ∃ rab : PGFT_String, PGFT_EncodePyString T (.unicode (a ++ b)) true = .ok rab
      ∧ rab.scalars = ra.scalars ++ rb.scalars
      ∧ rab.length = ra.length + rb.length := by
  obtain ⟨la, va, hva, _, hma, hlena, hra⟩ := encode_ok_inv T a ra ha
  obtain ⟨lb, vb, hvb, _, hmb, hlenb, hrb⟩ := encode_ok_inv T b rb hb
  have hla : ra.length = la := by rw [hra]
  have hlb : rb.length = lb := by rw [hrb]
  rw [hla, hlb] at hm
  have hvab : validateLoop (.unicode (a ++ b)) (a ++ b) 0 (a ++ b).length = .ok (la + lb) := by
    rw [validateLoop_append _ (.unicode (a ++ b)) a b 0 0 _ _ la hva,
      validateLoop_ok_any _ (.unicode (a ++ b)) b 0 _ _ _ lb hvb]
    congr 1
    simp only [List.length_append, Nat.cast_add]
    omega
  obtain ⟨vs, hvs, hlen, henc⟩ := encode_of_validate_ok T (a ++ b) (la + lb) hvab hm
  rw [mergeValues_append T _ a b _ _ _ va hva hma, hmb] at hvs
  simp only [Option.map_some', Option.some.injEq] at hvs
  refine ⟨_, henc, ?_, ?_⟩
  · rw [scalars_mk _ vs hlen, hra, hrb, scalars_mk _ va hlena, scalars_mk _ vb hlenb, ← hvs]
    simp
  · rw [hla, hlb]

/-- C17 at `[0x41, 0xD800, 0xDC00]` and `[0xD8FF, 0xDFFF, 0x42]` on a wide
build. -/
theorem C17_concatenation_witness :
    ∃ rab : PGFT_String,
      PGFT_EncodePyString wideSigned
          (.unicode ([0x41, 0xD800, 0xDC00] ++ [0xD8FF, 0xDFFF, 0x42])) true = .ok rab
      ∧ rab.scalars
          = (⟨2, [some 0x41, some 0x10000, some 0]⟩ : PGFT_String).scalars
            ++ (⟨2, [some 0x4FFFF, some 0x42, some 0]⟩ : PGFT_String).scalars
      ∧ rab.length = (⟨2, [some 0x41, some 0x10000, some 0]⟩ : PGFT_String).length
          + (⟨2, [some 0x4FFFF, some 0x42, some 0]⟩ : PGFT_String).length :=
  C17_concatenation wideSigned [0x41, 0xD800, 0xDC00] [0xD8FF, 0xDFFF, 0x42]
    ⟨2, [some 0x41, some 0x10000, some 0]⟩ ⟨2, [some 0x4FFFF, some 0x42, some 0]⟩ rfl rfl rfl

/-! ## Different units, same scalars -/

/-- C18: on a narrow build (16-bit `Py_UNICODE`), with `surrogates` set, the
units `[0xD800, 0xDC00]`, the units `[0xD840, 0xDC00]` and the unit `[0x0000]`
are three different inputs of 16-bit units that all give the one scalar `0`:
two different pairs share a scalar, and a pair shares one with a plain
unit. -/
theorem C18_distinct_units_same_scalars :
    PGFT_EncodePyString narrowSigned (.unicode [0xD800, 0xDC00]) true
        = .ok ⟨1, [some 0, some 0]⟩
      ∧ PGFT_EncodePyString narrowSigned (.unicode [0xD840, 0xDC00]) true
        = .ok ⟨1, [some 0, some 0]⟩
      ∧ PGFT_EncodePyString narrowSigned (.unicode [0x0000]) true
        = .ok ⟨1, [some 0, some 0]⟩
      ∧ ([0xD800, 0xDC00] : List Nat) ≠ [0xD840, 0xDC00]
      ∧ ([0xD800, 0xDC00] : List Nat) ≠ [0x0000] :=
  ⟨rfl, rfl, rfl, by decide, by decide⟩

/-- The first iteration of the validation loop on units it accepts: a unit
outside `[0xD800, 0xD8FF]` stepped over, or a unit inside with a follower in
`[0xDC00, 0xDFFF]`. -/
theorem validateLoop_cons_cases (obj : PyObject) (c : Nat) (rest : List Nat) (i : Nat)
    (len l : Int) (h : validateLoop obj (c :: rest) i len = .ok l) :
    (¬(0xD800 ≤ c ∧ c ≤ 0xD8FF) ∧ validateLoop obj rest (i + 1) len = .ok l)
    ∨ ((0xD800 ≤ c ∧ c ≤ 0xD8FF) ∧ ∃ (lo : Nat) (rest2 : List Nat), rest = lo :: rest2
        ∧ (0xDC00 ≤ lo ∧ lo ≤ 0xDFFF) ∧ validateLoop obj rest2 (i + 2) (len - 1) = .ok l) := by
  by_cases hb : c = UNICODE_BOM_NATIVE ∨ c = UNICODE_BOM_SWAPPED
  · simp [validateLoop_bom _ _ _ _ _ hb] at h
  · by_cases hs : UNICODE_SA_START ≤ c ∧ c < UNICODE_SA_END
    · by_cases hh : c > UNICODE_HSA_END
      · simp [validateLoop_above _ _ _ _ _ hb hs hh] at h
      · cases rest with
        | nil => simp [validateLoop_lead_last _ _ _ _ hb hs hh] at h
        | cons c2 rest2 =>
          by_cases hl : c2 < UNICODE_LSA_START ∨ c2 > UNICODE_LSA_END
          · simp [validateLoop_lead_bad _ _ _ _ _ _ hb hs hh hl] at h
          · rw [validateLoop_pair _ _ _ _ _ _ hb hs hh hl] at h
            refine Or.inr ⟨lead_of_pair c hs hh, c2, rest2, rfl, ?_, h⟩
            simp only [UNICODE_LSA_START, UNICODE_LSA_END] at hl
            omega
    · rw [validateLoop_plain _ _ _ _ _ hb hs] at h
      exact Or.inl ⟨not_lead_of_plain c hs, h⟩

/-- Accepted units have a reference decoding. -/
theorem referenceDecode_of_validate (obj : PyObject) : ∀ (n : Nat) (src : List Nat) (i : Nat)
    (len l : Int), src.length ≤ n → validateLoop obj src i len = .ok l →
    ∃ vs, referenceDecode src = some vs
  | _, [], _, _, _, _, _ => ⟨[], rfl⟩
  | 0, c :: rest, _, _, _, hn, _ => by simp at hn
  | n + 1, c :: rest, i, len, l, hn, h => by
    rcases validateLoop_cons_cases obj c rest i len l h with ⟨hc, ht⟩ | ⟨hc, lo, rest2, rfl, _, ht⟩
    · obtain ⟨vs, hvs⟩ := referenceDecode_of_validate obj n rest _ _ _
        (by simp at hn; omega) ht
      exact ⟨c :: vs, by rw [referenceDecode_plain c rest hc, hvs]; rfl⟩
    · obtain ⟨vs, hvs⟩ := referenceDecode_of_validate obj n rest2 _ _ _
        (by simp at hn; omega) ht
      exact ⟨_ :: vs, by rw [referenceDecode_pair c lo rest2 hc, hvs]; rfl⟩

/-- The reference decoding tells accepted 16-bit units apart. -/
theorem referenceDecode_injective (obj : PyObject) : ∀ (n : Nat) (a b : List Nat) (i i' : Nat)
    (len len' l l' : Int), a.length ≤ n → validateLoop obj a i len = .ok l →
    validateLoop obj b i' len' = .ok l' → (∀ u ∈ a, u < 65536) → (∀ u ∈ b, u < 65536) →
    referenceDecode a = referenceDecode b → a = b
  | _, [], [], _, _, _, _, _, _, _, _, _, _, _, _ => rfl
  | _, [], c :: rest, _, i', _, len', _, l', _, _, hb, _, _, he => by
    exfalso
    rcases validateLoop_cons_cases obj c rest i' len' l' hb with
      ⟨hc, ht⟩ | ⟨hc, lo, rest2, rfl, _, ht⟩
    · obtain ⟨vs, hvs⟩ := referenceDecode_of_validate obj _ rest _ _ _ (le_refl _) ht
      rw [referenceDecode_plain c rest hc, hvs] at he
      simp [referenceDecode] at he
    · obtain ⟨vs, hvs⟩ := referenceDecode_of_validate obj _ rest2 _ _ _ (le_refl _) ht
      rw [referenceDecode_pair c lo rest2 hc, hvs] at he
      simp [referenceDecode] at he
  | 0, c :: rest, _, _, _, _, _, _, _, hn, _, _, _, _, _ => by simp at hn
  | n + 1, c :: rest, [], i, _, len, _, l, _, _, ha, _, _, _, he => by
    exfalso
    rcases validateLoop_cons_cases obj c rest i len l ha with
      ⟨hc, ht⟩ | ⟨hc, lo, rest2, rfl, _, ht⟩
    · obtain ⟨vs, hvs⟩ := referenceDecode_of_validate obj _ rest _ _ _ (le_refl _) ht
      rw [referenceDecode_plain c rest hc, hvs] at he
      simp [referenceDecode] at he
    · obtain ⟨vs, hvs⟩ := referenceDecode_of_validate obj _ rest2 _ _ _ (le_refl _) ht
      rw [referenceDecode_pair c lo rest2 hc, hvs] at he
      simp [referenceDecode] at he
  | n + 1, c :: rest, d :: rest', i, i', len, len', l, l', hn, ha, hb, hwa, hwb, he => by
    have hcw : c < 65536 := hwa c (by simp)
    have hdw : d < 65536 := hwb d (by simp)
    rcases validateLoop_cons_cases obj c rest i len l ha with
      ⟨hc, hta⟩ | ⟨hc, lo, rest2, rfl, hlo, hta⟩
    · obtain ⟨vs, hvs⟩ := referenceDecode_of_validate obj _ rest _ _ _ (le_refl _) hta
      rw [referenceDecode_plain c rest hc, hvs] at he
      rcases validateLoop_cons_cases obj d rest' i' len' l' hb with
        ⟨hd, htb⟩ | ⟨hd, lo', rest2', rfl, hlo', htb⟩
      · obtain ⟨ws, hws⟩ := referenceDecode_of_validate obj _ rest' _ _ _ (le_refl _) htb
        rw [referenceDecode_plain d rest' hd, hws] at he
        simp only [Option.map_some', Option.some.injEq, List.cons.injEq] at he
        have ht : rest = rest' :=
          referenceDecode_injective obj n rest rest' _ _ _ _ _ _ (by simp at hn; omega) hta htb
            (fun u hu => hwa u (List.mem_cons_of_mem _ hu))
            (fun u hu => hwb u (List.mem_cons_of_mem _ hu)) (by rw [hvs, hws, he.2])
        rw [he.1, ht]
      · exfalso
        obtain ⟨ws, hws⟩ := referenceDecode_of_validate obj _ rest2' _ _ _ (le_refl _) htb
        rw [referenceDecode_pair d lo' rest2' hd, hws] at he
        simp only [Option.map_some', Option.some.injEq, List.cons.injEq] at he
        have := he.1
        rw [merged_arith] at this
        omega
    · obtain ⟨vs, hvs⟩ := referenceDecode_of_validate obj _ rest2 _ _ _ (le_refl _) hta
      rw [referenceDecode_pair c lo rest2 hc, hvs] at he
      rcases validateLoop_cons_cases obj d rest' i' len' l' hb with
        ⟨hd, htb⟩ | ⟨hd, lo', rest2', rfl, hlo', htb⟩
      · exfalso
        obtain ⟨ws, hws⟩ := referenceDecode_of_validate obj _ rest' _ _ _ (le_refl _) htb
        rw [referenceDecode_plain d rest' hd, hws] at he
        simp only [Option.map_some', Option.some.injEq, List.cons.injEq] at he
        have := he.1
        rw [merged_arith] at this
        omega
      · obtain ⟨ws, hws⟩ := referenceDecode_of_validate obj _ rest2' _ _ _ (le_refl _) htb
        rw [referenceDecode_pair d lo' rest2' hd, hws] at he
        simp only [Option.map_some', Option.some.injEq, List.cons.injEq] at he
        have hv := he.1
        rw [merged_arith, merged_arith] at hv
        have ht : rest2 = rest2' :=
          referenceDecode_injective obj n rest2 rest2' _ _ _ _ _ _ (by simp at hn; omega)
            hta htb
            (fun u hu => hwa u (by simp [hu]))
            (fun u hu => hwb u (by simp [hu])) (by rw [hvs, hws, he.2])
        have hcd : c = d := by omega
        have hll : lo = lo' := by omega
        rw [hcd, hll, ht]

/-- With a `Py_UNICODE` of 21 to 32 bits and `surrogates` set, two unicode
objects of 16-bit units that give strings with the same scalars have the same
units. -/
theorem encode_injective_of_wide (T : Target) (hlo : 21 ≤ T.unicodeBits)
    (hhi : T.unicodeBits ≤ 32) (a b : List Nat) (ra rb : PGFT_String)
    (hwa : ∀ u ∈ a, u < 65536) (hwb : ∀ u ∈ b, u < 65536)
    (ha : PGFT_EncodePyString T (.unicode a) true = .ok ra)
    (hb : PGFT_EncodePyString T (.unicode b) true = .ok rb)
    (he : ra.scalars = rb.scalars) : a = b := by
  have hw : (65536 : Nat) ≤ 2 ^ T.unicodeBits :=
    le_trans (by norm_num) (Nat.pow_le_pow_right (show 0 < 2 by decide) hlo)
  obtain ⟨va, hva, hsa⟩ := encode_is_reference_of_wide T hlo hhi a ra
    (fun u hu => lt_of_lt_of_le (hwa u hu) hw) ha
  obtain ⟨vb, hvb, hsb⟩ := encode_is_reference_of_wide T hlo hhi b rb
    (fun u hu => lt_of_lt_of_le (hwb u hu) hw) hb
  obtain ⟨la, hla⟩ := validate_of_encode_ok T a ra ha
  obtain ⟨lb, hlb⟩ := validate_of_encode_ok T b rb hb
  have hl' := validateLoop_ok_any _ (.unicode a) b 0 0 _ (b.length : Int) lb hlb
  rw [hsa, hsb] at he
  have hv : va = vb := List.map_injective_iff.2 (Option.some_injective _) he
  exact referenceDecode_injective (.unicode a) a.length a b _ _ _ _ _ _ (le_refl _) hla hl'
    hwa hwb (by rw [hva, hvb, hv])

end PGFT
